import Mathlib

/-!
Shallow embedding of the default raster I/O engine of this repository
(`GDALRasterBand::IRasterIO` and supporting functions of `rasterio.cpp`),
together with proofs about the behaviour its specification describes.

Conventions used throughout:
* C `int` values are modelled as `Int`; C integer division (truncation
  toward zero) is `Int.tdiv`, C `%` is `Int.tmod`.
* C `double` computations are modelled as exact rational arithmetic over
  the explicit fraction type `CQ` below (the spec directs implementers to
  treat the `(i + 0.5) * ratio + origin + eps` formulas as authoritative,
  which the exact rationals realise for the integer-derived quantities
  appearing in these code paths).
* Raster data is modelled at byte granularity for the single-byte
  (`GDT_Byte`-to-`GDT_Byte`) instantiation of the windowed I/O paths, and
  at word/byte granularity for the bulk copy engine.
-/

/-- Status codes of the error framework (`CPLErr`).  The numeric values
live in `cpl_error.h`, outside the sources at hand; modelled from the
spec: "Interruption — a distinct status from ordinary failure"; the
constructors of an inductive type are pairwise distinct, which is the
property the engine relies on. -/
inductive CPLErr where
  | ceNone : CPLErr
  | ceFailure : CPLErr
  | ceInterrupted : CPLErr
deriving DecidableEq, Repr

/-- Read/write selector of a RasterIO request (`GDALRWFlag`). -/
inductive GDALRWFlag where
  | GF_Read : GDALRWFlag
  | GF_Write : GDALRWFlag
deriving DecidableEq, Repr

/-- Exact fractions with (by construction) positive denominator, used to
model the C `double` computations of the windowed paths.  All doubles in
those paths are built from `int` quantities by the four arithmetic
operations, so exact fractions reproduce them. -/
structure CQ where
  n : Int
  d : Int
deriving DecidableEq, Repr

/-- Embed an integer. -/
def CQ.ofInt (z : Int) : CQ := ⟨z, 1⟩

/-- Quotient of two integers (`a / b` on doubles); callers keep `b > 0`. -/
def CQ.mkDiv (a b : Int) : CQ := ⟨a, b⟩

/-- Addition of fractions. -/
def CQ.add (x y : CQ) : CQ := ⟨x.n * y.d + y.n * x.d, x.d * y.d⟩

/-- Multiplication of fractions. -/
def CQ.mul (x y : CQ) : CQ := ⟨x.n * y.n, x.d * y.d⟩

/-- Division of fractions, keeping the denominator positive when both
inputs have positive denominator and the divisor is nonzero. -/
def CQ.div (x y : CQ) : CQ :=
  if 0 ≤ y.n then ⟨x.n * y.d, x.d * y.n⟩ else ⟨-(x.n * y.d), -(x.d * y.n)⟩

/-- Strict comparison (valid for positive denominators). -/
def CQ.lt (x y : CQ) : Bool := decide (x.n * y.d < y.n * x.d)

/-- Non-strict comparison (valid for positive denominators). -/
def CQ.le (x y : CQ) : Bool := decide (x.n * y.d ≤ y.n * x.d)

/-- Mathematical value of a fraction. -/
def CQ.toRat (x : CQ) : ℚ := (x.n : ℚ) / (x.d : ℚ)

/-- `floor` of a fraction (denominator positive). -/
def CQ.floorQ (x : CQ) : Int := Int.fdiv x.n x.d

/-- `ceil` of a fraction (denominator positive); the C pattern is
`(int)ceil(x)`. -/
def CQ.ceilQ (x : CQ) : Int := -(Int.fdiv (-x.n) x.d)

/-- C cast `(int)x` of a double: truncation toward zero. -/
def CQ.ctrunc (x : CQ) : Int := Int.tdiv x.n x.d

/-- A byte-addressed memory. -/
def Mem : Type := Int → Nat

/-- Store one byte. -/
def writeByte (m : Mem) (p : Int) (b : Nat) : Mem :=
  fun a => if a = p then b else m a

/-- Store a list of bytes at consecutive addresses starting at `p`
(the shape of a `memcpy` destination update). -/
def writeBytes (m : Mem) (p : Int) : List Nat → Mem
  | [] => m
  | b :: r => writeBytes (writeByte m p b) (p + 1) r

/-- Load `k` consecutive bytes starting at `p`. -/
def readBytes (m : Mem) (p : Int) : Nat → List Nat
  | 0 => []
  | k + 1 => m p :: readBytes m (p + 1) k

/-- The pixel data types handled by `GDALCopyWords`. -/
inductive GDALDataType where
  | GDT_Unknown : GDALDataType
  | GDT_Byte : GDALDataType
  | GDT_UInt16 : GDALDataType
  | GDT_Int16 : GDALDataType
  | GDT_UInt32 : GDALDataType
  | GDT_Int32 : GDALDataType
  | GDT_Float32 : GDALDataType
  | GDT_Float64 : GDALDataType
  | GDT_CInt16 : GDALDataType
  | GDT_CInt32 : GDALDataType
  | GDT_CFloat32 : GDALDataType
  | GDT_CFloat64 : GDALDataType
deriving DecidableEq, Repr

open GDALDataType

/-- `GDALGetDataTypeSizeBytes`. -/
def dtSize : GDALDataType → Nat
  | GDT_Unknown => 0
  | GDT_Byte => 1
  | GDT_UInt16 => 2
  | GDT_Int16 => 2
  | GDT_UInt32 => 4
  | GDT_Int32 => 4
  | GDT_Float32 => 4
  | GDT_Float64 => 8
  | GDT_CInt16 => 4
  | GDT_CInt32 => 8
  | GDT_CFloat32 => 8
  | GDT_CFloat64 => 16

/-- `GDALDataTypeIsComplex`. -/
def dtIsComplex : GDALDataType → Bool
  | GDT_CInt16 => true
  | GDT_CInt32 => true
  | GDT_CFloat32 => true
  | GDT_CFloat64 => true
  | _ => false

/-! ### Bulk copy engine (`GDALCopyWords` and helpers)

The scalar one-word converter `GDALCopyWord` lives in
`gdal_priv_templates.hpp`, outside the sources at hand; the engine is
therefore parameterised by an abstract one-word conversion
`convW : List Nat → List Nat` mapping the bytes of one source word to the
bytes of one destination word. -/

/-- `n` stores of the word image `w` at `p`, `p + stride`, ... in
increasing order: the shape shared by the replication loops of
`GDALReplicateWord`/`GDALReplicateWordT` and by a sequence of
single-word conversions. -/
def seqFrom (w : List Nat) (stride : Int) : Mem → Int → Nat → Mem
  | m, _, 0 => m
  | m, p, k + 1 => seqFrom w stride (writeBytes m p w) (p + stride) k

/-- Generic strided raw copy: `while( nIters-- > 0 ) { *pDest = *pSrc;
pSrc += sstep; pDest += dstep; }` over elements of `s` bytes, with byte
steps `dstep`/`sstep`. -/
def strideCopyFrom (s : Nat) (src : Mem) (dstep sstep : Int) :
    Mem → Int → Int → Nat → Mem
  | m, _, _, 0 => m
  | m, dp, sp, k + 1 =>
      strideCopyFrom s src dstep sstep
        (writeBytes m dp (readBytes src sp s)) (dp + dstep) (sp + sstep) k

/-- `GDALUnrolledCopy<T, srcStride, dstStride>`: copies element `k` of the
strided source to element `k` of the strided destination for
`k < nIters`.  The source performs this 16-at-a-time (plus SSE byte
shuffles for `GByte` with source stride 2, 3, 4); those unrollings
perform exactly these element assignments in this order. -/
def gdalUnrolledCopy (s srcStrideElems dstStrideElems : Nat)
    (dst src : Mem) (nIters : Int) : Mem :=
  strideCopyFrom s src ((dstStrideElems * s : Nat) : Int)
    ((srcStrideElems * s : Nat) : Int) dst 0 0 nIters.toNat

/-- `GDALFastCopy<T>` for an element type of `s` bytes (the engine
instantiates it at `GByte`, `s = 1`, and `short`, `s = 2`).  Strides are
in bytes; the general branches advance by `(stride / sizeof(T)) *
sizeof(T)` bytes because the C code performs the division on `T*`
pointers. -/
def gdalFastCopy (s : Nat) (dst : Mem) (nDestStride : Int)
    (src : Mem) (nSrcStride : Int) (nIters : Int) : Mem :=
  if nIters = 1 then
    writeBytes dst 0 (readBytes src 0 s)
  else if nDestStride = (s : Int) then
    if nSrcStride = (s : Int) then
      writeBytes dst 0 (readBytes src 0 (nIters.toNat * s))
    else if nSrcStride = 2 * (s : Int) then gdalUnrolledCopy s 2 1 dst src nIters
    else if nSrcStride = 3 * (s : Int) then gdalUnrolledCopy s 3 1 dst src nIters
    else if nSrcStride = 4 * (s : Int) then gdalUnrolledCopy s 4 1 dst src nIters
    else
      strideCopyFrom s src (s : Int) (Int.tdiv nSrcStride (s : Int) * (s : Int))
        dst 0 0 nIters.toNat
  else if nSrcStride = (s : Int) then
    if nDestStride = 2 * (s : Int) then gdalUnrolledCopy s 1 2 dst src nIters
    else if nDestStride = 3 * (s : Int) then gdalUnrolledCopy s 1 3 dst src nIters
    else if nDestStride = 4 * (s : Int) then gdalUnrolledCopy s 1 4 dst src nIters
    else
      strideCopyFrom s src (Int.tdiv nDestStride (s : Int) * (s : Int)) (s : Int)
        dst 0 0 nIters.toNat
  else
    strideCopyFrom s src (Int.tdiv nDestStride (s : Int) * (s : Int))
      (Int.tdiv nSrcStride (s : Int) * (s : Int)) dst 0 0 nIters.toNat

/-- Per-word conversion loop: the body of `GDALCopyWordsGenericT` (read
one source word, convert, store one destination word, advance both
pointers by their strides). -/
def convLoopFrom (srcSize : Nat) (convW : List Nat → List Nat) (src : Mem)
    (dstep sstep : Int) : Mem → Int → Int → Nat → Mem
  | m, _, _, 0 => m
  | m, dp, sp, k + 1 =>
      convLoopFrom srcSize convW src dstep sstep
        (writeBytes m dp (convW (readBytes src sp srcSize))) (dp + dstep)
        (sp + sstep) k

/-- `GDALCopyWordsFromT` / `GDALCopyWordsT`: type-dispatched conversion of
`nWordCount` words.  Modelled by the per-word kernel
`GDALCopyWordsGenericT`; the SIMD specialisations of `GDALCopyWordsT`
write the same one-destination-word-per-source-word footprint on packed
strides and fall back to `GDALCopyWordsGenericT` otherwise (their
value-level equivalence is a separate floating-point question, not
modelled here). -/
def gdalCopyWordsFromT (convW : List Nat → List Nat) (srcm : Mem)
    (eSrcType : GDALDataType) (nSrcPixelStride : Int) (dstm : Mem)
    (nDstPixelStride : Int) (nWordCount : Int) : Mem :=
  convLoopFrom (dtSize eSrcType) convW srcm nDstPixelStride nSrcPixelStride
    dstm 0 0 nWordCount.toNat

/-- Byte image of a single-word `GDALCopyWords(pSrc, eSrc, 0, pDst, eDst,
0, 1)` call: a same-type call reduces to a `memcpy`/raw element copy of
the source word, a converting call writes the converted word (lemma
`gdalCopyWords_one` below establishes this against the dispatch). -/
def oneWordBytesM (convW : List Nat → List Nat) (srcm : Mem)
    (eSrc eDst : GDALDataType) : List Nat :=
  if eSrc = eDst then readBytes srcm 0 (dtSize eSrc)
  else convW (readBytes srcm 0 (dtSize eSrc))

/-- The packed branch of `GDALReplicateWordT<T>`: stores the value four at
a time while at least four words remain, then one at a time. -/
def repPacked (s : Nat) (v : List Nat) : Mem → Int → Nat → Mem
  | m, p, c + 4 =>
      repPacked s v
        (writeBytes
          (writeBytes (writeBytes (writeBytes m p v) (p + (s : Int)) v)
            (p + 2 * (s : Int)) v)
          (p + 3 * (s : Int)) v)
        (p + 4 * (s : Int)) c
  | m, p, c => seqFrom v (s : Int) m p c

/-- `GDALReplicateWordT<T>` for an element of `s` bytes: the destination
word at offset 0 (`valSet`, read once) is stored `c` further times. -/
def gdalReplicateWordT (s : Nat) (m : Mem) (nDstPixelStride : Int)
    (c : Nat) : Mem :=
  let valSet := readBytes m 0 s
  if nDstPixelStride = (s : Int) then repPacked s valSet m (s : Int) c
  else seqFrom valSet nDstPixelStride m nDstPixelStride c

/-- The complex cases of `GDALReplicateWord` (macro
`CASE_DUPLICATE_COMPLEX`): both component values are read once from the
first destination word and stored per further element. -/
def repComplex (cs : Nat) (v1 v2 : List Nat) (stride : Int) :
    Mem → Int → Nat → Mem
  | m, _, 0 => m
  | m, p, k + 1 =>
      repComplex cs v1 v2 stride
        (writeBytes (writeBytes m p v1) (p + (cs : Int)) v2) (p + stride) k

/-- `GDALReplicateWord`: one general single-word conversion into the first
destination word, then replication of that word `nWordCount - 1` times,
dispatched on the destination type (`memset` for packed bytes,
`GDALReplicateWordT` for the simple types, the component-pair loop for
the complex types; `GDT_Unknown` hits `CPLAssert(false)` and stores
nothing further). -/
def gdalReplicateWord (convW : List Nat → List Nat) (srcm : Mem)
    (eSrcType : GDALDataType) (dstm : Mem) (eDstType : GDALDataType)
    (nDstPixelStride : Int) (nWordCount : Nat) : Mem :=
  let m1 := writeBytes dstm 0 (oneWordBytesM convW srcm eSrcType eDstType)
  let c := nWordCount - 1
  match eDstType with
  | GDT_Byte =>
      if nDstPixelStride = 1 then writeBytes m1 1 (List.replicate c (m1 0))
      else seqFrom [m1 0] nDstPixelStride m1 nDstPixelStride c
  | GDT_UInt16 => gdalReplicateWordT 2 m1 nDstPixelStride c
  | GDT_Int16 => gdalReplicateWordT 2 m1 nDstPixelStride c
  | GDT_UInt32 => gdalReplicateWordT 4 m1 nDstPixelStride c
  | GDT_Int32 => gdalReplicateWordT 4 m1 nDstPixelStride c
  | GDT_Float32 => gdalReplicateWordT 4 m1 nDstPixelStride c
  | GDT_Float64 => gdalReplicateWordT 8 m1 nDstPixelStride c
  | GDT_CInt16 =>
      repComplex 2 (readBytes m1 0 2) (readBytes m1 2 2) nDstPixelStride m1
        nDstPixelStride c
  | GDT_CInt32 =>
      repComplex 4 (readBytes m1 0 4) (readBytes m1 4 4) nDstPixelStride m1
        nDstPixelStride c
  | GDT_CFloat32 =>
      repComplex 4 (readBytes m1 0 4) (readBytes m1 4 4) nDstPixelStride m1
        nDstPixelStride c
  | GDT_CFloat64 =>
      repComplex 8 (readBytes m1 0 8) (readBytes m1 8 8) nDstPixelStride m1
        nDstPixelStride c
  | GDT_Unknown => m1

/-- `GDALCopyWords`: the dispatch between the replication special case,
the same-type fast paths (byte/2-byte `GDALFastCopy`, single-word
`memcpy`, packed `memcpy`) and the general converting path.  The
`CPL_CPU_REQUIRES_ALIGNED_ACCESS` preamble is not compiled on the
targets of this repository and is not modelled. -/
def gdalCopyWords (convW : List Nat → List Nat) (srcm : Mem)
    (eSrcType : GDALDataType) (nSrcPixelStride : Int) (dstm : Mem)
    (eDstType : GDALDataType) (nDstPixelStride : Int)
    (nWordCount : Int) : Mem :=
  if nSrcPixelStride = 0 ∧ nWordCount > 1 then
    gdalReplicateWord convW srcm eSrcType dstm eDstType nDstPixelStride
      nWordCount.toNat
  else if eSrcType = eDstType then
    if eSrcType = GDT_Byte then
      gdalFastCopy 1 dstm nDstPixelStride srcm nSrcPixelStride nWordCount
    else if dtSize eSrcType = 2 ∧ Int.tmod nSrcPixelStride 2 = 0 ∧
        Int.tmod nDstPixelStride 2 = 0 then
      gdalFastCopy 2 dstm nDstPixelStride srcm nSrcPixelStride nWordCount
    else if nWordCount = 1 then
      writeBytes dstm 0
        (readBytes srcm 0
          (if dtSize eSrcType = 2 then 2
           else if dtSize eSrcType = 4 then 4
           else if dtSize eSrcType = 8 then 8 else 16))
    else if nSrcPixelStride = nDstPixelStride ∧
        nSrcPixelStride = (dtSize eSrcType : Int) then
      writeBytes dstm 0 (readBytes srcm 0 (nWordCount.toNat * dtSize eSrcType))
    else
      gdalCopyWordsFromT convW srcm eSrcType nSrcPixelStride dstm
        nDstPixelStride nWordCount
  else
    gdalCopyWordsFromT convW srcm eSrcType nSrcPixelStride dstm
      nDstPixelStride nWordCount

/-- Number of one-word `GDALCopyWord`-level conversions performed by a
`GDALCopyWords` call, branch for branch: the replication special case
converts once, the raw same-type fast paths convert zero times, the
general converting path converts once per word. -/
def gdalCopyWordsConvCalls (eSrcType : GDALDataType) (nSrcPixelStride : Int)
    (eDstType : GDALDataType) (nDstPixelStride : Int)
    (nWordCount : Int) : Nat :=
  if nSrcPixelStride = 0 ∧ nWordCount > 1 then 1
  else if eSrcType = eDstType then
    if eSrcType = GDT_Byte then 0
    else if dtSize eSrcType = 2 ∧ Int.tmod nSrcPixelStride 2 = 0 ∧
        Int.tmod nDstPixelStride 2 = 0 then 0
    else if nWordCount = 1 then 0
    else if nSrcPixelStride = nDstPixelStride ∧
        nSrcPixelStride = (dtSize eSrcType : Int) then 0
    else nWordCount.toNat
  else nWordCount.toNat

/-- Reference for the replication claim: `n` sequential single-word
conversions of the same source word, the `k`-th one writing the
destination word at byte offset `k * stride`. -/
def seqSingleConv (convW : List Nat → List Nat) (srcm : Mem)
    (eSrc : GDALDataType) (dstm : Mem) (eDst : GDALDataType)
    (stride : Int) (n : Nat) : Mem :=
  seqFrom (oneWordBytesM convW srcm eSrc eDst) stride dstm 0 n

/-! ### Replication: `GDALReplicateWord` equals sequential conversions -/

/-- Pointwise update of a component buffer. -/
def updW {B : Type} (f : Nat → B) (p : Nat) (v : B) : Nat → B :=
  fun a => if a = p then v else f a

/-- `GDALCopyWordsGenericT`: for each of `n` words, read the component at
the source cursor, convert it, store it at the destination cursor, and
advance both cursors by their steps.  For a complex source buffer the
`Tin`-typed read at the word's address yields the word's first (real)
component, which is what source step 2 with an even start models. -/
def genericTFrom {A B : Type} (conv : A → B) (sStep dStep : Nat)
    (src : Nat → A) : (Nat → B) → Nat → Nat → Nat → (Nat → B)
  | dst, _, _, 0 => dst
  | dst, si, di, k + 1 =>
      genericTFrom conv sStep dStep src (updW dst di (conv (src si)))
        (si + sStep) (di + dStep) k

/-- `GDALCopyWordsComplexOutT`: real source, complex destination — for
each word, the converted source component is stored as the destination
word's first component and `tOutZero` (`static_cast<Tout>(0)`) as its
second (`pPixelOut[1] = tOutZero`). -/
def complexOutTFrom {A B : Type} (conv : A → B) (zeroB : B)
    (sStep dStep : Nat) (src : Nat → A) :
    (Nat → B) → Nat → Nat → Nat → (Nat → B)
  | dst, _, _, 0 => dst
  | dst, si, di, k + 1 =>
      complexOutTFrom conv zeroB sStep dStep src
        (updW (updW dst di (conv (src si))) (di + 1) zeroB)
        (si + sStep) (di + dStep) k

/-- One overview band, as the selection logic sees it: its size and the
value of its `RESAMPLING` metadata item. -/
structure OverviewInfo where
  xSize : Int
  ySize : Int
  resampling : Option (List Char)
deriving DecidableEq, Repr

/-- A band with overviews: `GetXSize()`, `GetYSize()`,
`GetOverviewCount()`/`GetOverview(i)` (a `none` entry models
`GetOverview` returning null, which the scan skips). -/
structure BandOv where
  xSize : Int
  ySize : Int
  overviews : List (Option OverviewInfo)
deriving DecidableEq, Repr

/-- `STARTS_WITH_CI`: case-insensitive prefix test. -/
def startsWithCI : List Char → List Char → Bool
  | _, [] => true
  | [], _ :: _ => false
  | c :: cs, p :: ps => (c.toUpper = p.toUpper) && startsWithCI cs ps

/-- The scan ignores overviews whose `RESAMPLING` metadata starts with
`AVERAGE_BIT2` (non-RasterIO-safe). -/
def isAvgBit2 (resampling : Option (List Char)) : Bool :=
  match resampling with
  | none => false
  | some s => startsWithCI s ("AVERAGE_BIT2".data)

/-- Decimation ratio of an overview relative to the full band: the code
takes the X ratio when it is the smaller one, else the Y ratio. -/
def bandOvRatio (bandX bandY oX oY : Int) : CQ :=
  if (CQ.mkDiv bandX oX).lt (CQ.mkDiv bandY oY) then CQ.mkDiv bandX oX
  else CQ.mkDiv bandY oY

/-- Desired resolution of a request: based on the least reduced axis
(X ratio when it is smaller or when the buffer is one row tall). -/
def desiredRes (nXSize nYSize nBufXSize nBufYSize : Int) : CQ :=
  if ((CQ.mkDiv nXSize nBufXSize).lt (CQ.mkDiv nYSize nBufYSize) ||
      nBufYSize == 1) = true
  then CQ.mkDiv nXSize nBufXSize else CQ.mkDiv nYSize nBufYSize

/-- One iteration of the overview scan: skip a null overview; skip when
`dfResolution >= dfDesiredResolution * 1.2` or
`dfResolution <= dfBestResolution`; skip `AVERAGE_BIT2` overviews;
otherwise the overview becomes the new best. -/
def ovScanStep (bandX bandY : Int) (desired : CQ) (i : Nat)
    (ovInfo : Option OverviewInfo) (acc : Int × CQ) : Int × CQ :=
  match ovInfo with
  | none => acc
  | some ov =>
      let res := bandOvRatio bandX bandY ov.xSize ov.ySize
      if ((desired.mul (CQ.mkDiv 6 5)).le res || res.le acc.2) = true then acc
      else if isAvgBit2 ov.resampling then acc
      else ((i : Int), res)

/-- The overview scan loop of `GDALBandGetBestOverviewLevel2`, with
accumulator `(nBestOverviewLevel, dfBestResolution)` starting at
`(-1, 0)`. -/
def ovScan (bandX bandY : Int) (desired : CQ) :
    Nat → List (Option OverviewInfo) → (Int × CQ) → Int × CQ
  | _, [], acc => acc
  | i, ovInfo :: rest, acc =>
      ovScan bandX bandY desired (i + 1) rest
        (ovScanStep bandX bandY desired i ovInfo acc)

/-- The overview-selection part of `GDALBandGetBestOverviewLevel2`: the
returned overview level, `-1` when no overview qualifies.  (The window
rescaling that the C function performs after a successful selection is
not consulted by any claim and is not modelled.)  `1.2` is the exact
constant of the comparison `dfResolution >= dfDesiredResolution * 1.2`. -/
def gdalBandGetBestOverviewLevel2 (band : BandOv)
    (nXSize nYSize nBufXSize nBufYSize : Int) : Int :=
  (ovScan band.xSize band.ySize
    (desiredRes nXSize nYSize nBufXSize nBufYSize) 0 band.overviews
    (-1, CQ.ofInt 0)).1

/-- Ratio (as a rational number) of overview `i` of a band, `0` when
absent. -/
def ovRatioCQ (band : BandOv) (i : Nat) : CQ :=
  match band.overviews.get? i with
  | some (some ov) => bandOvRatio band.xSize band.ySize ov.xSize ov.ySize
  | _ => CQ.ofInt 0

/-- Value-level ratio of overview `i`. -/
def ovRatioAt (band : BandOv) (i : Nat) : ℚ := (ovRatioCQ band i).toRat

/-- Overview `i` qualifies for RasterIO redirection: it exists, is not an
`AVERAGE_BIT2` overview, and its ratio is strictly below `1.2` times the
desired ratio. -/
def ovQualifies (band : BandOv) (desired : CQ) (i : Nat) : Prop :=
  ∃ ov, band.overviews.get? i = some (some ov) ∧
    isAvgBit2 ov.resampling = false ∧
    (bandOvRatio band.xSize band.ySize ov.xSize ov.ySize).toRat <
      6 / 5 * desired.toRat

/-- Invariant of the overview scan: either no processed overview
qualifies and the accumulator is untouched, or the accumulator holds a
qualifying processed overview of maximal ratio. -/
def ScanInv (band : BandOv) (desired : CQ) (i : Nat)
    (acc : Int × CQ) : Prop :=
  0 < acc.2.d ∧
  ((acc.1 = -1 ∧ acc.2 = CQ.ofInt 0 ∧
      ∀ j < i, ¬ovQualifies band desired j) ∨
    (∃ j : Nat, acc.1 = (j : Int) ∧ j < i ∧ ovQualifies band desired j ∧
      acc.2.toRat = ovRatioAt band j ∧
      ∀ k < i, ovQualifies band desired k →
        ovRatioAt band k ≤ acc.2.toRat))

/-- Band state for the windowed I/O paths. -/
structure BandB where
  rasterX : Int
  rasterY : Int
  blockW : Int
  blockH : Int
  flushErr : CPLErr

/-- External collaborators of one call: block storage (what
`GetLockedBlockRef` would read from disk), fresh block contents handed
out for `bJustInitialize` fetches (arbitrary prior memory), the dataset's
interruption flag as sampled by the successive `Interrupted()` polls, and
the successive progress-callback results (a null callback is
`fun _ => true`). -/
structure EnvB where
  storage : Int → Int → Option (Int → Nat)
  fresh : Int → Int → (Int → Nat)
  interrupt : Nat → Bool
  progressOk : Nat → Bool

/-- One RasterIO request (byte data). -/
structure ReqB where
  flag : GDALRWFlag
  nXOff : Int
  nYOff : Int
  nXSize : Int
  nYSize : Int
  nBufXSize : Int
  nBufYSize : Int
  nPixelSpace : Int
  nLineSpace : Int
  fpWin : Option (CQ × CQ × CQ × CQ)

/-- Mutable call state: the caller's buffer, the blocks this call has
written back to the cache, and cursors into the interruption/progress
sample streams. -/
structure IOState where
  buf : Int → Nat
  written : Int → Int → Option (Int → Nat)
  nChk : Nat
  nProg : Nat

/-- Observable events of a call, in order: `check b` — an `Interrupted()`
poll returning `b`; `fetch bx by ji ok` — a `GetLockedBlockRef(bx, by,
ji)` call that succeeded iff `ok`; `drop` — a `DropLock`; `zeroFill` — the
partial-edge-block `memset`; `progress ok` — a progress callback returning
`ok`. -/
inductive Ev where
  | check : Bool → Ev
  | fetch : Int → Int → Bool → Bool → Ev
  | drop : Ev
  | zeroFill : Ev
  | progress : Bool → Ev
deriving DecidableEq, Repr

/-- `GetLockedBlockRef`: a block already written back by this call is
served from the cache; otherwise `bJustInitialize = true` produces a
block without consulting storage, and a plain fetch reads storage
(failing when the storage layer fails). -/
def fetchBlock (e : EnvB) (st : IOState) (bx byy : Int)
    (justInit : Bool) : Option (Int → Nat) :=
  match st.written bx byy with
  | some d => some d
  | none => if justInit then some (e.fresh bx byy) else e.storage bx byy

/-- Record a block's contents under its coordinates when its lock is
dropped. -/
def putBlock (st : IOState) (bx byy : Int) (d : Int → Nat) : IOState :=
  { st with written := fun x y =>
      if x = bx ∧ y = byy then some d else st.written x y }

/-- `memset(pabySrcBlock, 0, nBandDataSize * nBlockXSize * nBlockYSize)`. -/
def zeroBlock (b : BandB) (d : Int → Nat) : Int → Nat :=
  fun o => if 0 ≤ o ∧ o < b.blockW * b.blockH then 0 else d o

/-- Pointwise buffer update. -/
def updB (f : Int → Nat) (p : Int) (v : Nat) : Int → Nat :=
  fun a => if a = p then v else f a

/-- Copy a span of `len` pixels from block offsets (consecutive, starting
at `srcOfs`) to buffer addresses (stride `ps`, starting at `bufOfs`): the
per-row read `memcpy` (`ps = 1`) or strided byte `GDALCopyWords`. -/
def spanToBuf (d : Int → Nat) : (Int → Nat) → Int → Int → Int → Nat → (Int → Nat)
  | buf, _, _, _, 0 => buf
  | buf, bufOfs, ps, srcOfs, Nat.succ j =>
      spanToBuf d (updB buf bufOfs (d srcOfs)) (bufOfs + ps) ps (srcOfs + 1) j

/-- Copy a span of `len` pixels from buffer addresses (stride `ps`) into
block offsets (consecutive): the per-row write `memcpy` or strided byte
`GDALCopyWords`. -/
def spanToBlock (buf : Int → Nat) : (Int → Nat) → Int → Int → Int → Nat → (Int → Nat)
  | d, _, _, _, 0 => d
  | d, srcOfs, bufOfs, ps, Nat.succ j =>
      spanToBlock buf (updB d srcOfs (buf bufOfs)) (srcOfs + 1) (bufOfs + ps) ps j

/-- `kmax` consecutive rows of a block copied to the buffer (the
`for(int k=0; k<kmax; k++)` loop of the 1:1 arbitrary-window case,
read direction). -/
def rowsToBuf (d : Int → Nat) (ps blockW nLineSpace : Int) (nXSpan : Nat) :
    (Int → Nat) → Int → Int → Nat → (Int → Nat)
  | buf, _, _, 0 => buf
  | buf, srcOfs, bufOfs, Nat.succ k =>
      rowsToBuf d ps blockW nLineSpace nXSpan
        (spanToBuf d buf bufOfs ps srcOfs nXSpan) (srcOfs + blockW)
        (bufOfs + nLineSpace) k

/-- `kmax` consecutive rows of the buffer copied into a block (write
direction). -/
def rowsToBlock (buf : Int → Nat) (ps blockW nLineSpace : Int)
    (nXSpan : Nat) : (Int → Nat) → Int → Int → Nat → (Int → Nat)
  | d, _, _, 0 => d
  | d, srcOfs, bufOfs, Nat.succ k =>
      rowsToBlock buf ps blockW nLineSpace nXSpan
        (spanToBlock buf d srcOfs bufOfs ps nXSpan) (srcOfs + blockW)
        (bufOfs + nLineSpace) k

/-- Block acquisition of the packed full-width case ("case 1") for one
destination row: when `iSrcY` leaves the current block row, drop the held
lock, poll the interruption flag, and fetch the new block row (with
`bJustInitialize` when the write fully covers it and the zero-fill
variant for a fully covered partial bottom block); otherwise keep the
held block.  `Sum.inl` is an early return (interruption, fetch failure,
or the defensive null-block check), `Sum.inr` carries the block row
index, its contents, the state and the events so far. -/
def case1Acquire (b : BandB) (e : EnvB) (r : ReqB)
    (iBufYOff nLBlockY : Int) (cur : Option (Int → Nat)) (st : IOState) :
    (CPLErr × IOState × List Ev) ⊕ (Int × (Int → Nat) × IOState × List Ev) :=
  let iSrcY := iBufYOff + r.nYOff
  if iSrcY < nLBlockY * b.blockH ∨
      iSrcY - b.blockH ≥ nLBlockY * b.blockH then
    let newY := Int.tdiv iSrcY b.blockH
    let bJI0 : Bool := decide (r.flag = GDALRWFlag.GF_Write ∧
      r.nXOff = 0 ∧ r.nXSize = b.blockW ∧
      r.nYOff ≤ newY * b.blockH ∧
      r.nYOff + r.nYSize - b.blockH ≥ newY * b.blockH)
    let bMZ : Bool := decide (r.flag = GDALRWFlag.GF_Write) && !bJI0 &&
      decide (r.nXOff = 0 ∧ r.nXSize = b.blockW ∧
        r.nYOff ≤ newY * b.blockH ∧ r.nYOff + r.nYSize = b.rasterY ∧
        newY * b.blockH > b.rasterY - b.blockH)
    let dropped :=
      match cur with
      | some d => (putBlock st 0 nLBlockY d, [Ev.drop])
      | none => (st, ([] : List Ev))
    let st0 := dropped.1
    let chk := e.interrupt st0.nChk
    let st1 := { st0 with nChk := st0.nChk + 1 }
    if chk then
      Sum.inl (CPLErr.ceInterrupted, st1, dropped.2 ++ [Ev.check true])
    else
      match fetchBlock e st1 0 newY (bJI0 || bMZ) with
      | none =>
          Sum.inl (CPLErr.ceFailure, st1,
            dropped.2 ++ [Ev.check false,
              Ev.fetch 0 newY (bJI0 || bMZ) false])
      | some d0 =>
          let d1 := if bMZ then zeroBlock b d0 else d0
          Sum.inr (newY, d1, st1,
            dropped.2 ++ Ev.check false ::
              Ev.fetch 0 newY (bJI0 || bMZ) true ::
              (if bMZ then [Ev.zeroFill] else []))
  else
    match cur with
    | some d => Sum.inr (nLBlockY, d, st, [])
    | none => Sum.inl (CPLErr.ceFailure, st, [])

/-- The packed full-width case of `IRasterIO` ("case 1"): one loop over
destination rows; per row the block row is acquired via `case1Acquire`,
the row is copied with a single `memcpy` of `nLineSpace` bytes, and
progress is reported.  Returns `(eErr, state, events)`. -/
def case1Go (b : BandB) (e : EnvB) (r : ReqB) :
    Nat → Int → Int → Option (Int → Nat) → IOState →
    (CPLErr × IOState × List Ev)
  | 0, _, nLBlockY, cur, st =>
      match cur with
      | some d => (CPLErr.ceNone, putBlock st 0 nLBlockY d, [Ev.drop])
      | none => (CPLErr.ceNone, st, [])
  | Nat.succ rows, iBufYOff, nLBlockY, cur, st =>
      let iSrcY := iBufYOff + r.nYOff
      match case1Acquire b e r iBufYOff nLBlockY cur st with
      | Sum.inl early => early
      | Sum.inr (blkY, d, st1, evs) =>
          let srcOfs := (iSrcY - blkY * b.blockH) * b.blockW + r.nXOff
          let moved :=
            if r.flag = GDALRWFlag.GF_Write then
              (spanToBlock st1.buf d srcOfs (iBufYOff * r.nLineSpace) 1
                r.nLineSpace.toNat, st1.buf)
            else
              (d, spanToBuf d st1.buf (iBufYOff * r.nLineSpace) 1 srcOfs
                r.nLineSpace.toNat)
          let pOk := e.progressOk st1.nProg
          let st2 := { st1 with buf := moved.2, nProg := st1.nProg + 1 }
          if pOk then
            let next := case1Go b e r rows (iBufYOff + 1) blkY (some moved.1)
              st2
            (next.1, next.2.1, evs ++ Ev.progress true :: next.2.2)
          else
            (CPLErr.ceFailure, putBlock st2 0 blkY moved.1,
              evs ++ [Ev.progress false, Ev.drop])

/-- Inner (block-column) loop of the 1:1 arbitrary-window case of
`IRasterIO` ("case 2"): while `iSrcX < nXSpanEnd`, poll the interruption
flag, fetch the intersecting block (with `bJustInitialize`/zero-fill per
the coverage tests), copy as many destination rows as fall into the
block, and drop the lock before moving to the next block column.  The
`INT_MAX` clamp of `nXSpan` is a no-op over unbounded `Int` and is not
modelled. -/
def case2InnerGo (b : BandB) (e : EnvB) (r : ReqB)
    (nLBlockY iSrcY iBufYOff : Int) :
    Nat → Int → Int → Int → IOState →
    (Option CPLErr × IOState × List Ev)
  | 0, _, _, _, st => (none, st, [])
  | Nat.succ fuelX, iSrcX, nLBlockX, iBufOffset, st =>
      if iSrcX < r.nBufXSize + r.nXOff then
        let nXRight := nLBlockX * b.blockW + b.blockW
        let nXSpan := (min nXRight (r.nBufXSize + r.nXOff)) - iSrcX
        let bJI0 : Bool := decide (r.flag = GDALRWFlag.GF_Write ∧
          r.nYOff ≤ nLBlockY * b.blockH ∧
          r.nYOff + r.nYSize - b.blockH ≥ nLBlockY * b.blockH ∧
          r.nXOff ≤ nLBlockX * b.blockW ∧ r.nXOff + r.nXSize ≥ nXRight)
        let bMZ : Bool := decide (r.flag = GDALRWFlag.GF_Write) && !bJI0 &&
          decide (r.nXOff ≤ nLBlockX * b.blockW ∧
            r.nYOff ≤ nLBlockY * b.blockH ∧
            (r.nXOff + r.nXSize ≥ nXRight ∨
              (r.nXOff + r.nXSize = b.rasterX ∧ nXRight > b.rasterX)) ∧
            (r.nYOff + r.nYSize - b.blockH ≥ nLBlockY * b.blockH ∨
              (r.nYOff + r.nYSize = b.rasterY ∧
                nLBlockY * b.blockH > b.rasterY - b.blockH)))
        let chk := e.interrupt st.nChk
        let st1 := { st with nChk := st.nChk + 1 }
        if chk then (some CPLErr.ceInterrupted, st1, [Ev.check true])
        else
          match fetchBlock e st1 nLBlockX nLBlockY (bJI0 || bMZ) with
          | none =>
              (some CPLErr.ceFailure, st1,
                [Ev.check false, Ev.fetch nLBlockX nLBlockY (bJI0 || bMZ)
                  false])
          | some d0 =>
              let d1 := if bMZ then zeroBlock b d0 else d0
              let iSrcOffset := (iSrcX - nLBlockX * b.blockW) +
                (iSrcY - nLBlockY * b.blockH) * b.blockW
              let kmax := min (b.blockH - Int.tmod iSrcY b.blockH)
                (r.nBufYSize - iBufYOff)
              let moved :=
                if r.flag = GDALRWFlag.GF_Write then
                  (rowsToBlock st1.buf r.nPixelSpace b.blockW r.nLineSpace
                    nXSpan.toNat d1 iSrcOffset iBufOffset kmax.toNat, st1.buf)
                else
                  (d1, rowsToBuf d1 r.nPixelSpace b.blockW r.nLineSpace
                    nXSpan.toNat st1.buf iSrcOffset iBufOffset kmax.toNat)
              let st2 := putBlock { st1 with buf := moved.2 } nLBlockX
                nLBlockY moved.1
              let evs := Ev.check false ::
                Ev.fetch nLBlockX nLBlockY (bJI0 || bMZ) true ::
                (if bMZ then [Ev.zeroFill] else []) ++ [Ev.drop]
              let next := case2InnerGo b e r nLBlockY iSrcY iBufYOff fuelX
                (iSrcX + nXSpan) (nLBlockX + 1)
                (iBufOffset + nXSpan * r.nPixelSpace) st2
              (next.1, next.2.1, evs ++ next.2.2)
      else (none, st, [])

/-- Outer (row-band) loop of the 1:1 arbitrary-window case: each
iteration handles one horizontal band of blocks via `case2InnerGo`, then
advances `iBufYOff`/`iSrcY` to the next block boundary and reports
progress. -/
def case2Go (b : BandB) (e : EnvB) (r : ReqB) :
    Nat → Int → Int → IOState → (CPLErr × IOState × List Ev)
  | 0, _, _, st => (CPLErr.ceNone, st, [])
  | Nat.succ fuelY, iBufYOff, iSrcY, st =>
      if iBufYOff < r.nBufYSize then
        let nLBlockY := Int.tdiv iSrcY b.blockH
        let inner := case2InnerGo b e r nLBlockY iSrcY iBufYOff
          (r.nBufXSize.toNat + 1) r.nXOff (Int.tdiv r.nXOff b.blockW)
          (iBufYOff * r.nLineSpace) st
        match inner.1 with
        | some err => (err, inner.2.1, inner.2.2)
        | none =>
            let nYInc := b.blockH - Int.tmod iSrcY b.blockH
            let pOk := e.progressOk inner.2.1.nProg
            let st2 := { inner.2.1 with nProg := inner.2.1.nProg + 1 }
            if pOk then
              let next := case2Go b e r fuelY (iBufYOff + nYInc)
                (iSrcY + nYInc) st2
              (next.1, next.2.1, inner.2.2 ++ Ev.progress true :: next.2.2)
            else
              (CPLErr.ceFailure, st2, inner.2.2 ++ [Ev.progress false])
      else (CPLErr.ceNone, st, [])

/-- The small epsilon of the nearest-sample mapping
(`const double EPS = 1e-10`). -/
def epsCQ : CQ := CQ.mkDiv 1 10000000000

/-- Loop state of the general (resampled) write path: the current block
coordinates (`nLBlockX`, `nLBlockY`, initially -1) of the lazily held
destination block, its contents while held, and the call state. -/
structure GWSt where
  nLBlockX : Int
  nLBlockY : Int
  cur : Option (Int → Nat)
  st : IOState

/-- Drop the held block (if any) and finish the general write path. -/
def gwFinish (gw : GWSt) (err : CPLErr) : CPLErr × IOState × List Ev :=
  match gw.cur with
  | some d => (err, putBlock gw.st gw.nLBlockX gw.nLBlockY d, [Ev.drop])
  | none => (err, gw.st, [])

/-- Inner (per-destination-column) loop of the general write path.  Note:
faithful to the source, this path performs *no* interruption poll before
fetching a block; a fetch failure returns `CE_Failure` directly (the
previously held lock was already dropped). -/
def genWriteInnerGo (b : BandB) (e : EnvB) (r : ReqB) (dfXInc : CQ)
    (iDstY iBufYOff : Int) :
    Nat → Int → GWSt → (Option CPLErr × GWSt × List Ev)
  | 0, _, gw => (none, gw, [])
  | Nat.succ fuelX, iDstX, gw =>
      if iDstX < r.nXOff + r.nXSize then
        let iBufXOff := CQ.ctrunc ((CQ.ofInt (iDstX - r.nXOff)).div dfXInc)
        let iBufOffset := iBufYOff * r.nLineSpace + iBufXOff * r.nPixelSpace
        let acquire : (Option CPLErr × GWSt × List Ev) ⊕ (GWSt × List Ev) :=
          if iDstX < gw.nLBlockX * b.blockW ∨
              iDstX - b.blockW ≥ gw.nLBlockX * b.blockW ∨
              iDstY < gw.nLBlockY * b.blockH ∨
              iDstY - b.blockH ≥ gw.nLBlockY * b.blockH then
            let newBX := Int.tdiv iDstX b.blockW
            let newBY := Int.tdiv iDstY b.blockH
            let bJI : Bool := decide (r.nYOff ≤ newBY * b.blockH ∧
              r.nYOff + r.nYSize - b.blockH ≥ newBY * b.blockH ∧
              r.nXOff ≤ newBX * b.blockW ∧
              r.nXOff + r.nXSize - b.blockW ≥ newBX * b.blockW)
            let dropped :=
              match gw.cur with
              | some d => (putBlock gw.st gw.nLBlockX gw.nLBlockY d,
                  [Ev.drop])
              | none => (gw.st, ([] : List Ev))
            match fetchBlock e dropped.1 newBX newBY bJI with
            | none =>
                Sum.inl (some CPLErr.ceFailure,
                  ⟨newBX, newBY, none, dropped.1⟩,
                  dropped.2 ++ [Ev.fetch newBX newBY bJI false])
            | some d =>
                Sum.inr (⟨newBX, newBY, some d, dropped.1⟩,
                  dropped.2 ++ [Ev.fetch newBX newBY bJI true])
          else Sum.inr (gw, [])
        match acquire with
        | Sum.inl early => early
        | Sum.inr (gw1, evs) =>
            match gw1.cur with
            | none => (some CPLErr.ceFailure, gw1, evs)
            | some d =>
                let iDstOffset := (iDstX - gw1.nLBlockX * b.blockW) +
                  (iDstY - gw1.nLBlockY * b.blockH) * b.blockW
                let d' := updB d iDstOffset (gw1.st.buf iBufOffset)
                let next := genWriteInnerGo b e r dfXInc iDstY iBufYOff fuelX
                  (iDstX + 1) { gw1 with cur := some d' }
                (next.1, next.2.1, evs ++ next.2.2)
      else (none, gw, [])

/-- Outer (per-destination-row) loop of the general write path. -/
def genWriteGo (b : BandB) (e : EnvB) (r : ReqB) (dfXInc dfYInc : CQ) :
    Nat → Int → GWSt → (CPLErr × IOState × List Ev)
  | 0, _, gw => gwFinish gw CPLErr.ceNone
  | Nat.succ rows, iDstY, gw =>
      if iDstY < r.nYOff + r.nYSize then
        let iBufYOff := CQ.ctrunc ((CQ.ofInt (iDstY - r.nYOff)).div dfYInc)
        let inner := genWriteInnerGo b e r dfXInc iDstY iBufYOff
          r.nXSize.toNat r.nXOff gw
        match inner.1 with
        | some err => (err, inner.2.1.st, inner.2.2)
        | none =>
            let gw1 := inner.2.1
            let pOk := e.progressOk gw1.st.nProg
            let gw2 := { gw1 with st :=
              { gw1.st with nProg := gw1.st.nProg + 1 } }
            if pOk then
              let next := genWriteGo b e r dfXInc dfYInc rows (iDstY + 1) gw2
              (next.1, next.2.1, inner.2.2 ++ Ev.progress true :: next.2.2)
            else
              let fin := gwFinish gw2 CPLErr.ceFailure
              (fin.1, fin.2.1, inner.2.2 ++ Ev.progress false :: fin.2.2)
      else gwFinish gw CPLErr.ceNone

/-- Innermost (per-destination-pixel) loop of the general
nearest-neighbour read path: `dfSrcX = (iBufXOff + 0.5) * dfSrcXInc +
nXOff + EPS`, truncated and clamped to the current block's X extent, then
one byte copied. -/
def genReadXGo (b : BandB) (r : ReqB) (dfXInc : CQ) (nLBlockX : Int)
    (d : Int → Nat) (iSrcOffsetCst : Int) :
    Nat → Int → Int → (Int → Nat) → (Int → Nat)
  | 0, _, _, buf => buf
  | Nat.succ fuel, iBufXOff, iBufOffset, buf =>
      let dfSrcX := ((((CQ.ofInt iBufXOff).add (CQ.mkDiv 1 2)).mul
        dfXInc).add (CQ.ofInt r.nXOff)).add epsCQ
      let t := CQ.ctrunc dfSrcX
      let iSrcX := if t < nLBlockX * b.blockW then nLBlockX * b.blockW
        else if t ≥ (nLBlockX + 1) * b.blockW then
          (nLBlockX + 1) * b.blockW - 1
        else t
      let buf' := updB buf iBufOffset
        (d (iSrcX - nLBlockX * b.blockW + iSrcOffsetCst))
      genReadXGo b r dfXInc nLBlockX d iSrcOffsetCst fuel (iBufXOff + 1)
        (iBufOffset + r.nPixelSpace) buf'

/-- Per-buffer-row loop of the general read path within one block:
computes the row's clamped source row, runs the pixel loop over the
block's buffer-X range, honours a pending `eErr` (`break`), and reports
progress. -/
def genReadRowsGo (b : BandB) (e : EnvB) (r : ReqB) (dfXInc dfYInc : CQ)
    (nLBlockX nLBlockY : Int) (d : Int → Nat) (iBufYLim : Int) :
    Nat → Int → CPLErr → IOState → (CPLErr × IOState × List Ev)
  | 0, _, eErr, st => (eErr, st, [])
  | Nat.succ fuel, iBufYOff, eErr, st =>
      if iBufYOff < iBufYLim then
        let dfSrcY := ((((CQ.ofInt iBufYOff).add (CQ.mkDiv 1 2)).mul
          dfYInc).add (CQ.ofInt r.nYOff)).add epsCQ
        let t := CQ.ctrunc dfSrcY
        let iSrcY := if t < nLBlockY * b.blockH then nLBlockY * b.blockH
          else if t ≥ (nLBlockY + 1) * b.blockH then
            (nLBlockY + 1) * b.blockH - 1
          else t
        let iBufXOff0 := max 0
          (CQ.ctrunc ((CQ.ofInt (nLBlockX * b.blockW - r.nXOff)).div dfXInc))
        let iBufXLim := min r.nBufXSize
          (CQ.ceilQ ((CQ.ofInt ((nLBlockX + 1) * b.blockW - r.nXOff)).div
            dfXInc))
        let iBufOffset := iBufYOff * r.nLineSpace +
          iBufXOff0 * r.nPixelSpace
        let iSrcOffsetCst := (iSrcY - nLBlockY * b.blockH) * b.blockW
        let buf' := genReadXGo b r dfXInc nLBlockX d iSrcOffsetCst
          (iBufXLim - iBufXOff0).toNat iBufXOff0 iBufOffset st.buf
        let st1 := { st with buf := buf' }
        if eErr = CPLErr.ceFailure then (eErr, st1, [])
        else
          let pOk := e.progressOk st1.nProg
          let st2 := { st1 with nProg := st1.nProg + 1 }
          if pOk then
            let next := genReadRowsGo b e r dfXInc dfYInc nLBlockX nLBlockY
              d iBufYLim fuel (iBufYOff + 1) eErr st2
            (next.1, next.2.1, Ev.progress true :: next.2.2)
          else (CPLErr.ceFailure, st2, [Ev.progress false])
      else (eErr, st, [])

/-- Block-column loop of the general read path: drop the held lock, poll
the interruption flag (returning `CE_Interrupted` immediately when set),
fetch the block, and run the row loop; a fetch failure sets `eErr` and
breaks out of the column loop. -/
def genReadColsGo (b : BandB) (e : EnvB) (r : ReqB) (dfXInc dfYInc : CQ)
    (nLBlockY nEndBlockX : Int) :
    Nat → Int → CPLErr → Option ((Int × Int) × (Int → Nat)) → IOState →
    (Option CPLErr × CPLErr × Option ((Int × Int) × (Int → Nat)) ×
      IOState × List Ev)
  | 0, _, eErr, cur, st => (none, eErr, cur, st, [])
  | Nat.succ fuel, nLBlockX, eErr, cur, st =>
      if nLBlockX ≤ nEndBlockX then
        let dropped :=
          match cur with
          | some ((bx, byy), d) => (putBlock st bx byy d, [Ev.drop])
          | none => (st, ([] : List Ev))
        let st0 := dropped.1
        let chk := e.interrupt st0.nChk
        let st1 := { st0 with nChk := st0.nChk + 1 }
        if chk then
          (some CPLErr.ceInterrupted, eErr, none, st1,
            dropped.2 ++ [Ev.check true])
        else
          match fetchBlock e st1 nLBlockX nLBlockY false with
          | none =>
              (none, CPLErr.ceFailure, none, st1,
                dropped.2 ++ [Ev.check false,
                  Ev.fetch nLBlockX nLBlockY false false])
          | some d =>
              let iBufYOff0 := max 0
                (CQ.ctrunc ((CQ.ofInt (nLBlockY * b.blockH - r.nYOff)).div
                  dfYInc))
              let iBufYLim := min r.nBufYSize
                (CQ.ceilQ ((CQ.ofInt ((nLBlockY + 1) * b.blockH -
                  r.nYOff)).div dfYInc))
              let rowsR := genReadRowsGo b e r dfXInc dfYInc nLBlockX
                nLBlockY d iBufYLim (iBufYLim - iBufYOff0).toNat iBufYOff0
                eErr st1
              let next := genReadColsGo b e r dfXInc dfYInc nLBlockY
                nEndBlockX fuel (nLBlockX + 1) rowsR.1
                (some ((nLBlockX, nLBlockY), d)) rowsR.2.1
              (next.1, next.2.1, next.2.2.1, next.2.2.2.1,
                dropped.2 ++ Ev.check false ::
                  Ev.fetch nLBlockX nLBlockY false true ::
                  rowsR.2.2 ++ next.2.2.2.2)
      else (none, eErr, cur, st, [])

/-- Block-row loop of the general read path; at the end the held lock is
dropped and the carried `eErr` returned. -/
def genReadGo (b : BandB) (e : EnvB) (r : ReqB) (dfXInc dfYInc : CQ)
    (nStartBlockX nEndBlockX nEndBlockY : Int) :
    Nat → Int → CPLErr → Option ((Int × Int) × (Int → Nat)) → IOState →
    (CPLErr × IOState × List Ev)
  | 0, _, eErr, cur, st =>
      (match cur with
       | some ((bx, byy), d) => (eErr, putBlock st bx byy d, [Ev.drop])
       | none => (eErr, st, []))
  | Nat.succ fuel, nLBlockY, eErr, cur, st =>
      if nLBlockY ≤ nEndBlockY then
        let cols := genReadColsGo b e r dfXInc dfYInc nLBlockY nEndBlockX
          ((nEndBlockX - nStartBlockX).toNat + 1) nStartBlockX eErr cur st
        match cols.1 with
        | some err => (err, cols.2.2.2.1, cols.2.2.2.2)
        | none =>
            let next := genReadGo b e r dfXInc dfYInc nStartBlockX
              nEndBlockX nEndBlockY fuel (nLBlockY + 1) cols.2.1
              cols.2.2.1 cols.2.2.2.1
            (next.1, next.2.1, cols.2.2.2.2 ++ next.2.2)
      else
        (match cur with
         | some ((bx, byy), d) => (eErr, putBlock st bx byy d, [Ev.drop])
         | none => (eErr, st, []))

/-- `dfXOff == nXOff` comparison of a floating-point window component
against its integer counterpart. -/
def CQ.eqInt (q : CQ) (z : Int) : Prop := q.n = z * q.d

instance (q : CQ) (z : Int) : Decidable (CQ.eqInt q z) := by
  unfold CQ.eqInt
  infer_instance

/-- Result of one modelled `IRasterIO` call. -/
structure IORes where
  err : CPLErr
  st : IOState
  trace : List Ev
  flushErrAfter : CPLErr

/-- `GDALRasterBand::IRasterIO` (byte data): the deferred write-flush
error guard, the invalid-block-size guard, then dispatch to the packed
full-width case, the 1:1 arbitrary-window case, or the general path
(write loop or nearest-neighbour read loop).  The modelled band has no
overviews (skipping the overview-redirection branch), the
`GDAL_NO_COSTLY_OVERVIEW` configuration is off (its default), and
requests use nearest-neighbour resampling (other algorithms delegate to
`RasterIOResampled`, outside this model). -/
def irasterIO (b : BandB) (e : EnvB) (r : ReqB) (st : IOState) : IORes :=
  if r.flag = GDALRWFlag.GF_Write ∧ b.flushErr ≠ CPLErr.ceNone then
    ⟨b.flushErr, st, [], CPLErr.ceNone⟩
  else if b.blockW ≤ 0 ∨ b.blockH ≤ 0 then
    ⟨CPLErr.ceFailure, st, [], b.flushErr⟩
  else
    let useInt : Bool :=
      match r.fpWin with
      | none => true
      | some (x, y, w, h) => decide (CQ.eqInt x r.nXOff ∧
          CQ.eqInt y r.nYOff ∧ CQ.eqInt w r.nXSize ∧ CQ.eqInt h r.nYSize)
    if r.nPixelSpace = 1 ∧ r.nLineSpace = r.nPixelSpace * r.nXSize ∧
        b.blockW = b.rasterX ∧ r.nBufXSize = r.nXSize ∧
        r.nBufYSize = r.nYSize ∧ useInt = true then
      let res := case1Go b e r r.nBufYSize.toNat 0 (-1) none st
      ⟨res.1, res.2.1, res.2.2, b.flushErr⟩
    else if r.nXSize = r.nBufXSize ∧ r.nYSize = r.nBufYSize ∧
        useInt = true then
      let res := case2Go b e r (r.nBufYSize.toNat + 1) 0 r.nYOff st
      ⟨res.1, res.2.1, res.2.2, b.flushErr⟩
    else
      let sizes :=
        match r.fpWin with
        | some (_, _, w, h) => (w, h)
        | none => (CQ.ofInt r.nXSize, CQ.ofInt r.nYSize)
      let dfXInc := sizes.1.div (CQ.ofInt r.nBufXSize)
      let dfYInc := sizes.2.div (CQ.ofInt r.nBufYSize)
      if r.flag = GDALRWFlag.GF_Write then
        let res := genWriteGo b e r dfXInc dfYInc r.nYSize.toNat r.nYOff
          ⟨-1, -1, none, st⟩
        ⟨res.1, res.2.1, res.2.2, b.flushErr⟩
      else
        let nStartBlockX := Int.tdiv r.nXOff b.blockW
        let nStartBlockY := Int.tdiv r.nYOff b.blockH
        let nEndBlockX := Int.tdiv (r.nXOff + r.nXSize - 1) b.blockW
        let nEndBlockY := Int.tdiv (r.nYOff + r.nYSize - 1) b.blockH
        let res := genReadGo b e r dfXInc dfYInc nStartBlockX nEndBlockX
          nEndBlockY ((nEndBlockY - nStartBlockY).toNat + 1) nStartBlockY
          CPLErr.ceNone none st
        ⟨res.1, res.2.1, res.2.2, b.flushErr⟩

/-! ### Lock and interruption-polling disciplines over event traces -/

/-- Lock automaton: `h` is the number of blocks currently locked.  A
fetch is only legal with no lock held (and acquires one when it
succeeds); a drop is only legal with exactly one lock held.  Returns the
final count, or `none` on a violation. -/
def lockRun : Nat → List Ev → Option Nat
  | h, [] => some h
  | h, Ev.fetch _ _ _ ok :: rest =>
      if h = 0 then lockRun (if ok then 1 else 0) rest else none
  | h, Ev.drop :: rest => if h = 1 then lockRun 0 rest else none
  | h, Ev.check _ :: rest => lockRun h rest
  | h, Ev.zeroFill :: rest => lockRun h rest
  | h, Ev.progress _ :: rest => lockRun h rest

/-- State of the interruption-polling automaton: `run c` with `c` true
exactly when the previous event was a negative interruption check, or
`stopped` after a positive check. -/
inductive GSt where
  | running : Bool → GSt
  | stopped : GSt
deriving DecidableEq, Repr

/-- Polling automaton: every fetch must be immediately preceded by a
negative interruption check, and nothing may follow a positive check
(the call aborts). -/
def guardRun : GSt → List Ev → Option GSt
  | s, [] => some s
  | GSt.stopped, _ :: _ => none
  | GSt.running c, Ev.fetch _ _ _ _ :: rest =>
      if c then guardRun (GSt.running false) rest else none
  | GSt.running _, Ev.check bb :: rest =>
      guardRun (if bb then GSt.stopped else GSt.running true) rest
  | GSt.running _, Ev.drop :: rest => guardRun (GSt.running false) rest
  | GSt.running _, Ev.zeroFill :: rest => guardRun (GSt.running false) rest
  | GSt.running _, Ev.progress _ :: rest =>
      guardRun (GSt.running false) rest

/-- Number of locks represented by a held-block option. -/
def curHeld : Option (Int → Nat) → Nat
  | some _ => 1
  | none => 0

/-- Number of locks represented by a held `((bx, by), data)` option of
the general read path. -/
def curHeldR : Option ((Int × Int) × (Int → Nat)) → Nat
  | some _ => 1
  | none => 0

/-! ### Theorems -/

theorem CQ.lt_iff_toRat (x y : CQ) (hx : 0 < x.d) (hy : 0 < y.d) :
    x.lt y = true ↔ x.toRat < y.toRat := by
  have hx' : (0 : ℚ) < (x.d : ℚ) := by exact_mod_cast hx
  have hy' : (0 : ℚ) < (y.d : ℚ) := by exact_mod_cast hy
  simp only [CQ.lt, CQ.toRat, decide_eq_true_eq]
  rw [div_lt_div_iff₀ hx' hy']
  constructor
  · intro h
    exact_mod_cast h
  · intro h
    exact_mod_cast h

theorem CQ.le_iff_toRat (x y : CQ) (hx : 0 < x.d) (hy : 0 < y.d) :
    x.le y = true ↔ x.toRat ≤ y.toRat := by
  have hx' : (0 : ℚ) < (x.d : ℚ) := by exact_mod_cast hx
  have hy' : (0 : ℚ) < (y.d : ℚ) := by exact_mod_cast hy
  simp only [CQ.le, CQ.toRat, decide_eq_true_eq]
  rw [div_le_div_iff₀ hx' hy']
  constructor
  · intro h
    exact_mod_cast h
  · intro h
    exact_mod_cast h

/-! ### Byte-addressed memory for the bulk copy engine

`GDALCopyWords` manipulates raw buffers through byte pointers; we model a
buffer as a total function from byte addresses (`Int`, pointer offsets
relative to the buffer base) to byte values (`Nat`). -/

theorem readBytes_length (m : Mem) (p : Int) (k : Nat) :
    (readBytes m p k).length = k := by
  induction k generalizing p with
  | zero => rfl
  | succ k ih => simp [readBytes, ih]

theorem writeBytes_eq_of_lt (m : Mem) (p : Int) (l : List Nat) (a : Int)
    (h : a < p) : writeBytes m p l a = m a := by
  induction l generalizing m p with
  | nil => rfl
  | cons b r ih =>
    simp only [writeBytes]
    rw [ih (writeByte m p b) (p + 1) (by omega)]
    simp [writeByte]
    intro he
    omega

theorem readBytes_writeBytes (m : Mem) (p : Int) (l : List Nat) :
    readBytes (writeBytes m p l) p l.length = l := by
  induction l generalizing m p with
  | nil => rfl
  | cons b r ih =>
    simp only [writeBytes, List.length_cons, readBytes]
    rw [writeBytes_eq_of_lt _ _ _ _ (by omega), ih (writeByte m p b) (p + 1)]
    simp [writeByte]

theorem readBytes_split (m : Mem) (p : Int) (a b : Nat) :
    readBytes m p (a + b) = readBytes m p a ++ readBytes m (p + a) b := by
  induction a generalizing p with
  | zero => simp [readBytes]
  | succ a ih =>
    have : a + 1 + b = (a + b) + 1 := by omega
    rw [this]
    simp only [readBytes, List.cons_append]
    rw [ih (p + 1)]
    have : p + 1 + a = p + (a + 1 : Nat) := by push_cast; ring
    rw [this]

theorem writeBytes_append (m : Mem) (p : Int) (l1 l2 : List Nat) :
    writeBytes m p (l1 ++ l2) =
      writeBytes (writeBytes m p l1) (p + l1.length) l2 := by
  induction l1 generalizing m p with
  | nil => simp [writeBytes]
  | cons b r ih =>
    simp only [List.cons_append, writeBytes, List.length_cons, List.append_eq]
    rw [ih (writeByte m p b) (p + 1)]
    have : p + 1 + (r.length : Int) = p + ((r.length : Int) + 1) := by ring
    rw [this]
    push_cast
    ring_nf

/-! ### Data types of the engine (`GDALDataType`) -/

theorem seqFrom_succ (w : List Nat) (st : Int) (m : Mem) (p : Int) (k : Nat) :
    seqFrom w st m p (k + 1) = seqFrom w st (writeBytes m p w) (p + st) k := rfl

theorem repPacked_eq_seqFrom (s : Nat) (v : List Nat) :
    ∀ c m p, repPacked s v m p c = seqFrom v (s : Int) m p c := by
  intro c
  induction c using Nat.strong_induction_on with
  | _ c ih =>
    match c with
    | 0 => intro m p; rfl
    | 1 => intro m p; rfl
    | 2 => intro m p; rfl
    | 3 => intro m p; rfl
    | c + 4 =>
      intro m p
      rw [repPacked, ih c (by omega)]
      rw [seqFrom_succ, seqFrom_succ, seqFrom_succ, seqFrom_succ]
      ring_nf

theorem writeBytes_replicate (b : Nat) :
    ∀ (c : Nat) (m : Mem) (p : Int),
      writeBytes m p (List.replicate c b) = seqFrom [b] 1 m p c := by
  intro c
  induction c with
  | zero => intro m p; rfl
  | succ c ih =>
    intro m p
    rw [List.replicate_succ]
    show writeBytes (writeByte m p b) (p + 1) (List.replicate c b) = _
    rw [ih]
    rfl

theorem repComplex_eq_seqFrom (cs : Nat) (v1 v2 : List Nat)
    (hv : v1.length = cs) (stride : Int) :
    ∀ c m p, repComplex cs v1 v2 stride m p c =
      seqFrom (v1 ++ v2) stride m p c := by
  intro c
  induction c with
  | zero => intro m p; rfl
  | succ c ih =>
    intro m p
    rw [repComplex, ih, seqFrom_succ, writeBytes_append, hv]

theorem readBytes_writeBytes_of_length (m : Mem) (p : Int) (l : List Nat)
    (k : Nat) (h : l.length = k) : readBytes (writeBytes m p l) p k = l := by
  subst h
  exact readBytes_writeBytes m p l

theorem gdalReplicateWordT_eq_seq (s : Nat) (m1 : Mem) (stride : Int)
    (c : Nat) (w : List Nat) (hw : readBytes m1 0 s = w) :
    gdalReplicateWordT s m1 stride c = seqFrom w stride m1 stride c := by
  unfold gdalReplicateWordT
  rw [hw]
  by_cases h : stride = (s : Int)
  · rw [if_pos h, h, repPacked_eq_seqFrom]
  · rw [if_neg h]

/-- The replication dispatch of `GDALReplicateWord` produces exactly the
memory of `n` sequential stores of the first (converted) destination
word. -/
theorem gdalReplicateWord_eq_seq (convW : List Nat → List Nat) (srcm : Mem)
    (eSrc : GDALDataType) (dstm : Mem) (eDst : GDALDataType) (stride : Int)
    (n : Nat) (hdst : eDst ≠ GDT_Unknown) (hn : 1 ≤ n)
    (hlen : (oneWordBytesM convW srcm eSrc eDst).length = dtSize eDst) :
    gdalReplicateWord convW srcm eSrc dstm eDst stride n =
      seqFrom (oneWordBytesM convW srcm eSrc eDst) stride dstm 0 n := by
  set w := oneWordBytesM convW srcm eSrc eDst with hw
  set m1 := writeBytes dstm 0 w with hm1
  obtain ⟨c, rfl⟩ : ∃ c, n = c + 1 := ⟨n - 1, by omega⟩
  have hseq : seqFrom w stride dstm 0 (c + 1) = seqFrom w stride m1 stride c := by
    rw [seqFrom_succ, zero_add]
  rw [hseq]
  have hread : ∀ k, w.length = k → readBytes m1 0 k = w := fun k hk =>
    readBytes_writeBytes_of_length dstm 0 w k hk
  have hsplit : ∀ (a b k : Nat) (ai : Int), ai = (a : Int) → a + b = k →
      w.length = k → readBytes m1 0 a ++ readBytes m1 ai b = w := by
    intro a b k ai hai hab hk
    subst hai
    have h0 := readBytes_split m1 0 a b
    rw [hab, zero_add] at h0
    rw [← h0, hread k hk]
  cases eDst with
  | GDT_Unknown => exact absurd rfl hdst
  | GDT_Byte =>
    have hw1 : w.length = 1 := hlen
    have hb : [m1 0] = w := by
      have h1 := hread 1 hw1
      simpa [readBytes] using h1
    show (if stride = 1 then
        writeBytes m1 1 (List.replicate ((c + 1) - 1) (m1 0))
      else seqFrom [m1 0] stride m1 stride ((c + 1) - 1)) = _
    rw [Nat.add_sub_cancel]
    by_cases hst : stride = 1
    · rw [if_pos hst, writeBytes_replicate, hb, hst]
    · rw [if_neg hst, hb]
  | GDT_UInt16 =>
    show gdalReplicateWordT 2 m1 stride ((c + 1) - 1) = _
    rw [Nat.add_sub_cancel]
    exact gdalReplicateWordT_eq_seq 2 m1 stride c w (hread 2 hlen)
  | GDT_Int16 =>
    show gdalReplicateWordT 2 m1 stride ((c + 1) - 1) = _
    rw [Nat.add_sub_cancel]
    exact gdalReplicateWordT_eq_seq 2 m1 stride c w (hread 2 hlen)
  | GDT_UInt32 =>
    show gdalReplicateWordT 4 m1 stride ((c + 1) - 1) = _
    rw [Nat.add_sub_cancel]
    exact gdalReplicateWordT_eq_seq 4 m1 stride c w (hread 4 hlen)
  | GDT_Int32 =>
    show gdalReplicateWordT 4 m1 stride ((c + 1) - 1) = _
    rw [Nat.add_sub_cancel]
    exact gdalReplicateWordT_eq_seq 4 m1 stride c w (hread 4 hlen)
  | GDT_Float32 =>
    show gdalReplicateWordT 4 m1 stride ((c + 1) - 1) = _
    rw [Nat.add_sub_cancel]
    exact gdalReplicateWordT_eq_seq 4 m1 stride c w (hread 4 hlen)
  | GDT_Float64 =>
    show gdalReplicateWordT 8 m1 stride ((c + 1) - 1) = _
    rw [Nat.add_sub_cancel]
    exact gdalReplicateWordT_eq_seq 8 m1 stride c w (hread 8 hlen)
  | GDT_CInt16 =>
    show repComplex 2 (readBytes m1 0 2) (readBytes m1 2 2) stride m1 stride
      ((c + 1) - 1) = _
    rw [Nat.add_sub_cancel,
      repComplex_eq_seqFrom 2 (readBytes m1 0 2) (readBytes m1 2 2)
        (readBytes_length m1 0 2) stride,
      hsplit 2 2 4 2 (by norm_num) rfl hlen]
  | GDT_CInt32 =>
    show repComplex 4 (readBytes m1 0 4) (readBytes m1 4 4) stride m1 stride
      ((c + 1) - 1) = _
    rw [Nat.add_sub_cancel,
      repComplex_eq_seqFrom 4 (readBytes m1 0 4) (readBytes m1 4 4)
        (readBytes_length m1 0 4) stride,
      hsplit 4 4 8 4 (by norm_num) rfl hlen]
  | GDT_CFloat32 =>
    show repComplex 4 (readBytes m1 0 4) (readBytes m1 4 4) stride m1 stride
      ((c + 1) - 1) = _
    rw [Nat.add_sub_cancel,
      repComplex_eq_seqFrom 4 (readBytes m1 0 4) (readBytes m1 4 4)
        (readBytes_length m1 0 4) stride,
      hsplit 4 4 8 4 (by norm_num) rfl hlen]
  | GDT_CFloat64 =>
    show repComplex 8 (readBytes m1 0 8) (readBytes m1 8 8) stride m1 stride
      ((c + 1) - 1) = _
    rw [Nat.add_sub_cancel,
      repComplex_eq_seqFrom 8 (readBytes m1 0 8) (readBytes m1 8 8)
        (readBytes_length m1 0 8) stride,
      hsplit 8 8 16 8 (by norm_num) rfl hlen]

theorem gdalFastCopy_zero (s : Nat) (dst : Mem) (d : Int) (src : Mem)
    (sr : Int) : gdalFastCopy s dst d src sr 0 = dst := by
  unfold gdalFastCopy
  split_ifs with h1 h2 h3 h4 h5 h6 h7 h8 h9 <;>
    first
      | (exact absurd h1 (by decide))
      | simp [gdalUnrolledCopy, strideCopyFrom, readBytes, writeBytes]

/-- C10: a `GDALCopyWords` call with word count 0 performs no writes —
every branch of the dispatch (replication, byte/2-byte `GDALFastCopy`,
single-word and packed `memcpy`, general conversion loop) leaves every
byte of the destination buffer unchanged, and so does `GDALFastCopy`
itself for any element size and any strides. -/
theorem c10_copyWords_zero_count (convW : List Nat → List Nat)
    (srcm dstm : Mem) (eSrc eDst : GDALDataType) (ss ds : Int) (s : Nat) :
    gdalCopyWords convW srcm eSrc ss dstm eDst ds 0 = dstm ∧
    gdalFastCopy s dstm ds srcm ss 0 = dstm := by
  refine ⟨?_, gdalFastCopy_zero s dstm ds srcm ss⟩
  unfold gdalCopyWords
  split_ifs with h1 h2 h3 h4 h5 h6 h7 <;>
    first
      | (exact absurd h1.2 (by decide))
      | (exact absurd h5 (by decide))
      | (exact gdalFastCopy_zero _ _ _ _ _)
      | simp [gdalCopyWordsFromT, convLoopFrom, readBytes, writeBytes]

/-- C5: a `GDALCopyWords` call with `srcStride = 0` and word count
`n > 1` takes the replication special case: it performs exactly one
source-to-destination conversion and the destination buffer it produces
is byte-identical to the one produced by `n` sequential single-word
conversions of the same source word. -/
theorem c5_copyWords_replication (convW : List Nat → List Nat)
    (srcm : Mem) (eSrc : GDALDataType) (dstm : Mem) (eDst : GDALDataType)
    (stride : Int) (n : Nat) (_hsrc : eSrc ≠ GDT_Unknown)
    (hdst : eDst ≠ GDT_Unknown) (hn : 1 < n)
    (hlen : (convW (readBytes srcm 0 (dtSize eSrc))).length = dtSize eDst) :
    gdalCopyWords convW srcm eSrc 0 dstm eDst stride (n : Int) =
      seqSingleConv convW srcm eSrc dstm eDst stride n ∧
    gdalCopyWordsConvCalls eSrc 0 eDst stride (n : Int) = 1 := by
  have hn' : ((n : Int) > 1) := by exact_mod_cast hn
  have hlen' : (oneWordBytesM convW srcm eSrc eDst).length = dtSize eDst := by
    unfold oneWordBytesM
    by_cases h : eSrc = eDst
    · rw [if_pos h, readBytes_length, h]
    · rw [if_neg h]
      exact hlen
  constructor
  · unfold gdalCopyWords
    rw [if_pos ⟨rfl, hn'⟩, Int.toNat_natCast]
    exact gdalReplicateWord_eq_seq convW srcm eSrc dstm eDst stride n hdst
      (by omega) hlen'
  · unfold gdalCopyWordsConvCalls
    rw [if_pos ⟨rfl, hn'⟩]

/-- Closed instance of `c5_copyWords_replication` at a concrete byte
buffer: replicating the byte `5` with stride 1 and count 5. -/
theorem c5_copyWords_replication_witness :
    gdalCopyWords (fun l => [l.headD 0]) (fun _ => 5) GDT_Byte 0
        (fun _ => 0) GDT_Byte 1 ((5 : Nat) : Int) =
      seqSingleConv (fun l => [l.headD 0]) (fun _ => 5) GDT_Byte
        (fun _ => 0) GDT_Byte 1 5 ∧
    gdalCopyWordsConvCalls GDT_Byte 0 GDT_Byte 1 ((5 : Nat) : Int) = 1 :=
  c5_copyWords_replication (fun l => [l.headD 0]) (fun _ => 5) GDT_Byte
    (fun _ => 0) GDT_Byte 1 5 (by decide) (by decide) (by decide) rfl

/-! ### Word-level conversion kernels (complex/real rules, claim C6)

`GDALCopyWordsComplexOutT` and the `GDALCopyWordsT`/`GDALCopyWordsGenericT`
kernels reached from `GDALCopyWordsFromT` are modelled here at component
granularity: a buffer is a function from component indices to component
values, a complex word occupies two consecutive components, and the byte
strides of the C code become component steps (byte stride divided by the
component size).  The scalar converter `GDALCopyWord` (from
`gdal_priv_templates.hpp`, outside these sources) is an abstract
`conv : A → B`. -/

theorem genericTFrom_lt {A B : Type} (conv : A → B) (sStep dStep : Nat)
    (src : Nat → A) :
    ∀ (n : Nat) (dst : Nat → B) (si di a : Nat), a < di →
      genericTFrom conv sStep dStep src dst si di n a = dst a := by
  intro n
  induction n with
  | zero => intro dst si di a _; rfl
  | succ n ih =>
    intro dst si di a ha
    show genericTFrom conv sStep dStep src (updW dst di (conv (src si)))
      (si + sStep) (di + dStep) n a = dst a
    rw [ih _ _ _ a (by omega)]
    simp [updW]
    omega

theorem complexOutTFrom_lt {A B : Type} (conv : A → B) (zeroB : B)
    (sStep dStep : Nat) (src : Nat → A) :
    ∀ (n : Nat) (dst : Nat → B) (si di a : Nat), a < di →
      complexOutTFrom conv zeroB sStep dStep src dst si di n a = dst a := by
  intro n
  induction n with
  | zero => intro dst si di a _; rfl
  | succ n ih =>
    intro dst si di a ha
    show complexOutTFrom conv zeroB sStep dStep src
      (updW (updW dst di (conv (src si))) (di + 1) zeroB)
      (si + sStep) (di + dStep) n a = dst a
    rw [ih _ _ _ a (by omega)]
    simp only [updW]
    rw [if_neg (by omega), if_neg (by omega)]

theorem genericTFrom_get {A B : Type} (conv : A → B) (sStep dStep : Nat)
    (hd : 1 ≤ dStep) (src : Nat → A) :
    ∀ (n : Nat) (dst : Nat → B) (si di k : Nat), k < n →
      genericTFrom conv sStep dStep src dst si di n (di + k * dStep) =
        conv (src (si + k * sStep)) := by
  intro n
  induction n with
  | zero => intro dst si di k hk; omega
  | succ n ih =>
    intro dst si di k hk
    show genericTFrom conv sStep dStep src (updW dst di (conv (src si)))
      (si + sStep) (di + dStep) n (di + k * dStep) = _
    match k with
    | 0 =>
      rw [genericTFrom_lt conv sStep dStep src n _ _ _ _ (by omega)]
      simp [updW]
    | k + 1 =>
      have harith : di + (k + 1) * dStep = (di + dStep) + k * dStep := by ring
      have harith2 : si + (k + 1) * sStep = (si + sStep) + k * sStep := by ring
      rw [harith, harith2, ih _ _ _ k (by omega)]

theorem complexOutTFrom_get {A B : Type} (conv : A → B) (zeroB : B)
    (sStep : Nat) (src : Nat → A) :
    ∀ (n : Nat) (dst : Nat → B) (si di k : Nat), k < n →
      complexOutTFrom conv zeroB sStep 2 src dst si di n (di + k * 2) =
        conv (src (si + k * sStep)) ∧
      complexOutTFrom conv zeroB sStep 2 src dst si di n (di + k * 2 + 1) =
        zeroB := by
  intro n
  induction n with
  | zero => intro dst si di k hk; omega
  | succ n ih =>
    intro dst si di k hk
    show (complexOutTFrom conv zeroB sStep 2 src
        (updW (updW dst di (conv (src si))) (di + 1) zeroB)
        (si + sStep) (di + 2) n (di + k * 2) = _) ∧
      (complexOutTFrom conv zeroB sStep 2 src
        (updW (updW dst di (conv (src si))) (di + 1) zeroB)
        (si + sStep) (di + 2) n (di + k * 2 + 1) = _)
    match k with
    | 0 =>
      rw [complexOutTFrom_lt conv zeroB sStep 2 src n _ _ _ _ (by omega),
        complexOutTFrom_lt conv zeroB sStep 2 src n _ _ _ _ (by omega)]
      constructor
      · simp [updW]
      · simp [updW]
    | k + 1 =>
      have h1 : di + (k + 1) * 2 = (di + 2) + k * 2 := by ring
      have h2 : di + (k + 1) * 2 + 1 = (di + 2) + k * 2 + 1 := by ring
      have h3 : si + (k + 1) * sStep = (si + sStep) + k * sStep := by ring
      rw [h2, h1, h3]
      exact ih _ _ _ k (by omega)

theorem genericTFrom_even_src {A B : Type} (conv : A → B) (dStep : Nat)
    (src src' : Nat → A) (hsrc : ∀ j, src (2 * j) = src' (2 * j)) :
    ∀ (n : Nat) (dst : Nat → B) (sj di : Nat),
      genericTFrom conv 2 dStep src dst (2 * sj) di n =
        genericTFrom conv 2 dStep src' dst (2 * sj) di n := by
  intro n
  induction n with
  | zero => intro dst sj di; rfl
  | succ n ih =>
    intro dst sj di
    show genericTFrom conv 2 dStep src (updW dst di (conv (src (2 * sj))))
        (2 * sj + 2) (di + dStep) n =
      genericTFrom conv 2 dStep src' (updW dst di (conv (src' (2 * sj))))
        (2 * sj + 2) (di + dStep) n
    rw [hsrc sj]
    have h1 : 2 * sj + 2 = 2 * (sj + 1) := by ring
    rw [h1, ih]

/-- C6: the complex/real conversion rules of the copy engine.  First
conjunct (real source, complex destination, `GDALCopyWordsFromT`
dispatching to `GDALCopyWordsComplexOutT`): destination word `k` receives
real part `conv` of the source word and imaginary part the destination
type's zero.  Second conjunct (complex source, real destination,
`GDALCopyWordsFromT` dispatching to `GDALCopyWordsT` over the component
type): destination word `k` is `conv` of the real component (component
`2k` of the packed complex buffer), and the output is independent of the
imaginary components — they are discarded, not combined into a
magnitude. -/
theorem c6_complex_conversion_rules {A B : Type} (conv : A → B) (zeroB : B)
    (srcR srcC : Nat → A) (dstR dstC : Nat → B) (n k sStep : Nat)
    (hk : k < n) :
    (complexOutTFrom conv zeroB sStep 2 srcR dstR 0 0 n (k * 2) =
        conv (srcR (k * sStep)) ∧
      complexOutTFrom conv zeroB sStep 2 srcR dstR 0 0 n (k * 2 + 1) =
        zeroB) ∧
    (genericTFrom conv 2 1 srcC dstC 0 0 n k = conv (srcC (k * 2)) ∧
      ∀ srcC' : Nat → A, (∀ j, srcC (2 * j) = srcC' (2 * j)) →
        genericTFrom conv 2 1 srcC dstC 0 0 n =
          genericTFrom conv 2 1 srcC' dstC 0 0 n) := by
  refine ⟨⟨?_, ?_⟩, ?_, ?_⟩
  · have h := (complexOutTFrom_get conv zeroB sStep srcR n dstR 0 0 k hk).1
    simpa using h
  · have h := (complexOutTFrom_get conv zeroB sStep srcR n dstR 0 0 k hk).2
    simpa using h
  · have h := genericTFrom_get conv 2 1 (by norm_num) srcC n dstC 0 0 k hk
    simpa using h
  · intro srcC' hagree
    have h := genericTFrom_even_src conv 1 srcC srcC' hagree n dstC 0 0
    simpa using h

/-- Closed instance of `c6_complex_conversion_rules` at concrete integer
buffers (`n = 2`, word 1). -/
theorem c6_complex_conversion_rules_witness :
    (complexOutTFrom (fun a : Int => a + 1) 0 1 2 (fun i => (i : Int))
        (fun _ => 99) 0 0 2 (1 * 2) = (fun a : Int => a + 1) ((1 * 1 : Nat) : Int) ∧
      complexOutTFrom (fun a : Int => a + 1) 0 1 2 (fun i => (i : Int))
        (fun _ => 99) 0 0 2 (1 * 2 + 1) = 0) ∧
    (genericTFrom (fun a : Int => a + 1) 2 1 (fun i => (i : Int))
        (fun _ => 99) 0 0 2 1 = (fun a : Int => a + 1) ((1 * 2 : Nat) : Int) ∧
      ∀ srcC' : Nat → Int,
        (∀ j, ((2 * j : Nat) : Int) = srcC' (2 * j)) →
        genericTFrom (fun a : Int => a + 1) 2 1 (fun i => (i : Int))
            (fun _ => 99) 0 0 2 =
          genericTFrom (fun a : Int => a + 1) 2 1 srcC' (fun _ => 99) 0 0 2) :=
  c6_complex_conversion_rules (fun a : Int => a + 1) 0 (fun i => (i : Int))
    (fun i => (i : Int)) (fun _ => 99) (fun _ => 99) 2 1 1 (by decide)

/-! ### Best-overview selection (`GDALBandGetBestOverviewLevel2`) -/

theorem CQ.mul_toRat (x y : CQ) : (x.mul y).toRat = x.toRat * y.toRat := by
  simp only [CQ.mul, CQ.toRat]
  push_cast
  rw [div_mul_div_comm]

theorem ovScanStep_inv (band : BandOv) (desired : CQ)
    (hbx : 0 < band.xSize) (hby : 0 < band.ySize)
    (hov : ∀ i ov, band.overviews.get? i = some (some ov) →
      0 < ov.xSize ∧ 0 < ov.ySize)
    (hdd : 0 < desired.d) (i : Nat) (ovInfo : Option OverviewInfo)
    (acc : Int × CQ) (hget : band.overviews.get? i = some ovInfo)
    (hInv : ScanInv band desired i acc) :
    ScanInv band desired (i + 1)
      (ovScanStep band.xSize band.ySize desired i ovInfo acc) := by
  obtain ⟨haccd, hbr⟩ := hInv
  cases ovInfo with
  | none =>
    have hni : ¬ovQualifies band desired i := by
      rintro ⟨ov', hov', -, -⟩
      rw [hget] at hov'
      exact Option.noConfusion (Option.some.inj hov')
    refine ⟨haccd, ?_⟩
    rcases hbr with ⟨h1, h2, h3⟩ | ⟨j, h1, h2, h3, h4, h5⟩
    · exact Or.inl ⟨h1, h2, fun j hj hq => by
        rcases Nat.lt_succ_iff_lt_or_eq.1 hj with hj' | rfl
        · exact h3 j hj' hq
        · exact hni hq⟩
    · refine Or.inr ⟨j, h1, by omega, h3, h4, fun k hk hq => ?_⟩
      rcases Nat.lt_succ_iff_lt_or_eq.1 hk with hk' | rfl
      · exact h5 k hk' hq
      · exact absurd hq hni
  | some ov =>
    obtain ⟨hoxp, hoyp⟩ := hov i ov hget
    set res := bandOvRatio band.xSize band.ySize ov.xSize ov.ySize with hres
    have hresd : 0 < res.d := by
      rw [hres]
      unfold bandOvRatio
      split
      · exact hoxp
      · exact hoyp
    have hreseq : ovRatioAt band i = res.toRat := by
      unfold ovRatioAt ovRatioCQ
      rw [hget]
    have hrespos : 0 < res.toRat := by
      rw [hres]
      unfold bandOvRatio
      have h1 : (0 : ℚ) < (CQ.mkDiv band.xSize ov.xSize).toRat := by
        simp only [CQ.mkDiv, CQ.toRat]
        apply div_pos
        · exact_mod_cast hbx
        · exact_mod_cast hoxp
      have h2 : (0 : ℚ) < (CQ.mkDiv band.ySize ov.ySize).toRat := by
        simp only [CQ.mkDiv, CQ.toRat]
        apply div_pos
        · exact_mod_cast hby
        · exact_mod_cast hoyp
      split
      · exact h1
      · exact h2
    have h12d : 0 < (desired.mul (CQ.mkDiv 6 5)).d := by
      simp only [CQ.mul, CQ.mkDiv]
      positivity
    have h12r : (desired.mul (CQ.mkDiv 6 5)).toRat = 6 / 5 * desired.toRat := by
      rw [CQ.mul_toRat]
      simp only [CQ.mkDiv, CQ.toRat]
      push_cast
      ring
    show ScanInv band desired (i + 1)
      (if ((desired.mul (CQ.mkDiv 6 5)).le res || res.le acc.2) = true then acc
       else if isAvgBit2 ov.resampling then acc else ((i : Int), res))
    by_cases hc1 : ((desired.mul (CQ.mkDiv 6 5)).le res || res.le acc.2) = true
    · rw [if_pos hc1]
      rw [Bool.or_eq_true] at hc1
      rcases hc1 with h | h
      · -- dfResolution >= dfDesiredResolution * 1.2: overview i does not
        -- qualify
        have hge : 6 / 5 * desired.toRat ≤ res.toRat := by
          have := (CQ.le_iff_toRat _ _ h12d hresd).1 h
          rw [h12r] at this
          exact this
        have hni : ¬ovQualifies band desired i := by
          rintro ⟨ov', hov', -, hlt⟩
          rw [hget] at hov'
          have hid : ov = ov' := Option.some.inj (Option.some.inj hov')
          rw [← hid] at hlt
          rw [← hres] at hlt
          linarith
        refine ⟨haccd, ?_⟩
        rcases hbr with ⟨h1, h2, h3⟩ | ⟨j, h1, h2, h3, h4, h5⟩
        · exact Or.inl ⟨h1, h2, fun j hj hq => by
            rcases Nat.lt_succ_iff_lt_or_eq.1 hj with hj' | rfl
            · exact h3 j hj' hq
            · exact hni hq⟩
        · refine Or.inr ⟨j, h1, by omega, h3, h4, fun k hk hq => ?_⟩
          rcases Nat.lt_succ_iff_lt_or_eq.1 hk with hk' | rfl
          · exact h5 k hk' hq
          · exact absurd hq hni
      · -- dfResolution <= dfBestResolution: dominated by current best
        have hle : res.toRat ≤ acc.2.toRat :=
          (CQ.le_iff_toRat _ _ hresd haccd).1 h
        rcases hbr with ⟨h1, h2, h3⟩ | ⟨j, h1, h2, h3, h4, h5⟩
        · -- impossible: the best is still 0 but every ratio is positive
          exfalso
          rw [h2] at hle
          have hz : (CQ.ofInt 0).toRat = 0 := by
            simp [CQ.ofInt, CQ.toRat]
          rw [hz] at hle
          linarith
        · refine ⟨haccd, Or.inr ⟨j, h1, by omega, h3, h4,
            fun k hk hq => ?_⟩⟩
          rcases Nat.lt_succ_iff_lt_or_eq.1 hk with hk' | rfl
          · exact h5 k hk' hq
          · rw [hreseq]
            exact hle
    · rw [if_neg hc1]
      rw [Bool.or_eq_true] at hc1
      push_neg at hc1
      obtain ⟨ha, hb⟩ := hc1
      have hlt12 : res.toRat < 6 / 5 * desired.toRat := by
        have hna : ¬(6 / 5 * desired.toRat ≤ res.toRat) := by
          intro hcontra
          exact ha ((CQ.le_iff_toRat _ _ h12d hresd).2 (by rw [h12r]; exact hcontra))
        linarith [lt_of_not_le hna]
      have hgt : acc.2.toRat < res.toRat := by
        have hnb : ¬(res.toRat ≤ acc.2.toRat) := by
          intro hcontra
          exact hb ((CQ.le_iff_toRat _ _ hresd haccd).2 hcontra)
        linarith [lt_of_not_le hnb]
      by_cases hc2 : isAvgBit2 ov.resampling = true
      · rw [if_pos hc2]
        have hni : ¬ovQualifies band desired i := by
          rintro ⟨ov', hov', hav, -⟩
          rw [hget] at hov'
          have hid : ov = ov' := Option.some.inj (Option.some.inj hov')
          rw [← hid] at hav
          rw [hc2] at hav
          exact Bool.noConfusion hav
        refine ⟨haccd, ?_⟩
        rcases hbr with ⟨h1, h2, h3⟩ | ⟨j, h1, h2, h3, h4, h5⟩
        · exact Or.inl ⟨h1, h2, fun j hj hq => by
            rcases Nat.lt_succ_iff_lt_or_eq.1 hj with hj' | rfl
            · exact h3 j hj' hq
            · exact hni hq⟩
        · refine Or.inr ⟨j, h1, by omega, h3, h4, fun k hk hq => ?_⟩
          rcases Nat.lt_succ_iff_lt_or_eq.1 hk with hk' | rfl
          · exact h5 k hk' hq
          · exact absurd hq hni
      · rw [if_neg hc2]
        have hfalse : isAvgBit2 ov.resampling = false := by
          revert hc2
          cases isAvgBit2 ov.resampling <;> simp
        have hqi : ovQualifies band desired i := ⟨ov, hget, hfalse, hlt12⟩
        refine ⟨hresd, Or.inr ⟨i, rfl, by omega, hqi, hreseq.symm,
          fun k hk hq => ?_⟩⟩
        rcases Nat.lt_succ_iff_lt_or_eq.1 hk with hk' | rfl
        · show ovRatioAt band k ≤ res.toRat
          rcases hbr with ⟨h1, h2, h3⟩ | ⟨j, h1, h2, h3, h4, h5⟩
          · exact absurd hq (h3 k hk')
          · have := h5 k hk' hq
            linarith
        · exact le_of_eq hreseq

theorem ovScan_inv (band : BandOv) (desired : CQ)
    (hbx : 0 < band.xSize) (hby : 0 < band.ySize)
    (hov : ∀ i ov, band.overviews.get? i = some (some ov) →
      0 < ov.xSize ∧ 0 < ov.ySize)
    (hdd : 0 < desired.d) :
    ∀ (rest : List (Option OverviewInfo)) (i : Nat) (acc : Int × CQ),
      (∀ j, rest.get? j = band.overviews.get? (i + j)) →
      ScanInv band desired i acc →
      ScanInv band desired (i + rest.length)
        (ovScan band.xSize band.ySize desired i rest acc) := by
  intro rest
  induction rest with
  | nil =>
    intro i acc _ hInv
    simpa [ovScan] using hInv
  | cons head tail ih =>
    intro i acc hrest hInv
    have hget : band.overviews.get? i = some head := by
      have h0 := hrest 0
      simpa using h0.symm
    have hstep := ovScanStep_inv band desired hbx hby hov hdd i head acc hget
      hInv
    have htail : ∀ j, tail.get? j = band.overviews.get? ((i + 1) + j) := by
      intro j
      have h1 := hrest (j + 1)
      have h2 : i + (j + 1) = (i + 1) + j := by omega
      rw [h2] at h1
      simpa using h1
    have hfin := ih (i + 1) _ htail hstep
    have harith : (i + 1) + tail.length = i + (head :: tail).length := by
      simp
      omega
    rw [harith] at hfin
    exact hfin

/-- C3 (amended): best-overview selection.  The scan returns `-1` exactly
when no overview qualifies, where an overview qualifies when it exists,
is not an `AVERAGE_BIT2` overview, and its decimation ratio is *strictly*
below `1.2 ×` the desired ratio (the code's comparison
`dfResolution >= dfDesiredResolution * 1.2` excludes exact equality, so
"largest value still `≤ 1.2 r`" of the original claim becomes "largest
value still `< 1.2 r`"); when it returns a level, that overview qualifies
and has the largest ratio among qualifying overviews.  In particular for
overview ratios `[1, 2, 4, 8]` and desired ratio `3.0` the selected
overview is the one with ratio 2. -/
theorem c3_best_overview_selection (band : BandOv)
    (nXSize nYSize nBufXSize nBufYSize : Int)
    (hbx : 0 < band.xSize) (hby : 0 < band.ySize)
    (hbufx : 0 < nBufXSize) (hbufy : 0 < nBufYSize)
    (hov : ∀ i ov, band.overviews.get? i = some (some ov) →
      0 < ov.xSize ∧ 0 < ov.ySize) :
    (gdalBandGetBestOverviewLevel2 band nXSize nYSize nBufXSize nBufYSize =
        -1 ↔
      ∀ i, ¬ovQualifies band
        (desiredRes nXSize nYSize nBufXSize nBufYSize) i) ∧
    (∀ j : Nat,
      gdalBandGetBestOverviewLevel2 band nXSize nYSize nBufXSize nBufYSize =
        (j : Int) →
      ovQualifies band (desiredRes nXSize nYSize nBufXSize nBufYSize) j ∧
      ∀ i, ovQualifies band (desiredRes nXSize nYSize nBufXSize nBufYSize) i →
        ovRatioAt band i ≤ ovRatioAt band j) ∧
    gdalBandGetBestOverviewLevel2
      ⟨8, 8, [some ⟨8, 8, none⟩, some ⟨4, 4, none⟩, some ⟨2, 2, none⟩,
        some ⟨1, 1, none⟩]⟩ 6 6 2 2 = 1 := by
  have hdd : 0 < (desiredRes nXSize nYSize nBufXSize nBufYSize).d := by
    unfold desiredRes
    split
    · exact hbufx
    · exact hbufy
  set desired := desiredRes nXSize nYSize nBufXSize nBufYSize with hdes
  have hInv0 : ScanInv band desired 0 (-1, CQ.ofInt 0) := by
    refine ⟨by norm_num [CQ.ofInt], Or.inl ⟨rfl, rfl, ?_⟩⟩
    intro j hj
    omega
  have hrest0 : ∀ j, band.overviews.get? j = band.overviews.get? (0 + j) := by
    intro j
    rw [Nat.zero_add]
  have hscan := ovScan_inv band desired hbx hby hov hdd band.overviews 0
    (-1, CQ.ofInt 0) hrest0 hInv0
  rw [Nat.zero_add] at hscan
  obtain ⟨hfd, hfin⟩ := hscan
  have hbeyond : ∀ i, band.overviews.length ≤ i → ¬ovQualifies band desired i := by
    intro i hi
    rintro ⟨ov, hgi, -, -⟩
    rw [List.get?_eq_none.2 hi] at hgi
    exact Option.noConfusion hgi
  refine ⟨?_, ?_, ?_⟩
  · constructor
    · intro hm1 i
      rcases hfin with ⟨h1, h2, h3⟩ | ⟨j, h1, h2, h3, h4, h5⟩
      · by_cases hi : i < band.overviews.length
        · exact h3 i hi
        · exact hbeyond i (by omega)
      · exfalso
        rw [show gdalBandGetBestOverviewLevel2 band nXSize nYSize nBufXSize
          nBufYSize = (ovScan band.xSize band.ySize desired 0 band.overviews
          (-1, CQ.ofInt 0)).1 from rfl] at hm1
        rw [h1] at hm1
        omega
    · intro hall
      rcases hfin with ⟨h1, h2, h3⟩ | ⟨j, h1, h2, h3, h4, h5⟩
      · exact h1
      · exact absurd h3 (hall j)
  · intro j hj
    rw [show gdalBandGetBestOverviewLevel2 band nXSize nYSize nBufXSize
      nBufYSize = (ovScan band.xSize band.ySize desired 0 band.overviews
      (-1, CQ.ofInt 0)).1 from rfl] at hj
    rcases hfin with ⟨h1, h2, h3⟩ | ⟨j', h1, h2, h3, h4, h5⟩
    · rw [h1] at hj
      omega
    · rw [h1] at hj
      have hjj : j' = j := by exact_mod_cast hj
      subst hjj
      refine ⟨h3, fun i hi => ?_⟩
      rw [← h4]
      by_cases hlen : i < band.overviews.length
      · exact h5 i hlen hi
      · exact absurd hi (hbeyond i (by omega))
  · decide

/-- Closed instance of `c3_best_overview_selection` at the four-overview
example band. -/
theorem c3_best_overview_selection_witness :
    (gdalBandGetBestOverviewLevel2
        ⟨8, 8, [some ⟨8, 8, none⟩, some ⟨4, 4, none⟩, some ⟨2, 2, none⟩,
          some ⟨1, 1, none⟩]⟩ 6 6 2 2 = -1 ↔
      ∀ i, ¬ovQualifies
        ⟨8, 8, [some ⟨8, 8, none⟩, some ⟨4, 4, none⟩, some ⟨2, 2, none⟩,
          some ⟨1, 1, none⟩]⟩ (desiredRes 6 6 2 2) i) ∧
    (∀ j : Nat,
      gdalBandGetBestOverviewLevel2
        ⟨8, 8, [some ⟨8, 8, none⟩, some ⟨4, 4, none⟩, some ⟨2, 2, none⟩,
          some ⟨1, 1, none⟩]⟩ 6 6 2 2 = (j : Int) →
      ovQualifies
        ⟨8, 8, [some ⟨8, 8, none⟩, some ⟨4, 4, none⟩, some ⟨2, 2, none⟩,
          some ⟨1, 1, none⟩]⟩ (desiredRes 6 6 2 2) j ∧
      ∀ i, ovQualifies
        ⟨8, 8, [some ⟨8, 8, none⟩, some ⟨4, 4, none⟩, some ⟨2, 2, none⟩,
          some ⟨1, 1, none⟩]⟩ (desiredRes 6 6 2 2) i →
        ovRatioAt ⟨8, 8, [some ⟨8, 8, none⟩, some ⟨4, 4, none⟩,
          some ⟨2, 2, none⟩, some ⟨1, 1, none⟩]⟩ i ≤
        ovRatioAt ⟨8, 8, [some ⟨8, 8, none⟩, some ⟨4, 4, none⟩,
          some ⟨2, 2, none⟩, some ⟨1, 1, none⟩]⟩ j) ∧
    gdalBandGetBestOverviewLevel2
      ⟨8, 8, [some ⟨8, 8, none⟩, some ⟨4, 4, none⟩, some ⟨2, 2, none⟩,
        some ⟨1, 1, none⟩]⟩ 6 6 2 2 = 1 :=
  c3_best_overview_selection
    ⟨8, 8, [some ⟨8, 8, none⟩, some ⟨4, 4, none⟩, some ⟨2, 2, none⟩,
      some ⟨1, 1, none⟩]⟩ 6 6 2 2 (by decide) (by decide) (by decide)
    (by decide)
    (by
      intro i ov h
      rcases i with _ | _ | _ | _ | i <;> simp_all [List.get?] <;>
        exact ⟨by rw [← h]; decide, by rw [← h]; decide⟩)

/-- C3 counterexample to the claim's "largest value still `≤ 1.2 × r`"
rule: a band of 12×12 with one 2×2 overview (decimation ratio 6), window
10×10 read into a 2×2 buffer (desired ratio 5).  The overview's ratio
equals `1.2 × 5 = 6` exactly, so under the claimed non-strict rule it
qualifies as the (only, hence largest) candidate, yet the code's
comparison `dfResolution >= dfDesiredResolution * 1.2` rejects it and the
function returns -1 (no suitable overview). -/
theorem c3_best_overview_counterexample :
    gdalBandGetBestOverviewLevel2 ⟨12, 12, [some ⟨2, 2, none⟩]⟩
      10 10 2 2 = -1 ∧
    ovRatioAt ⟨12, 12, [some ⟨2, 2, none⟩]⟩ 0 =
      6 / 5 * (desiredRes 10 10 2 2).toRat ∧
    isAvgBit2 ((⟨2, 2, none⟩ : OverviewInfo)).resampling = false := by
  refine ⟨by decide, ?_, by decide⟩
  norm_num [ovRatioAt, ovRatioCQ, bandOvRatio, CQ.lt, CQ.toRat, desiredRes,
    CQ.mkDiv, List.get?]

/-! ### Windowed block-aligned I/O (`GDALRasterBand::IRasterIO`)

The windowed paths are modelled for single-byte data
(`eDataType = eBufType = GDT_Byte`, so `nBandDataSize = nBufDataSize = 1`):
the claims about these paths concern control flow, block handling and
pixel coordinates, not type conversion.  Branches that the model omits,
each marked below: the overview-redirection branch (the modelled band has
no overviews), the `GDAL_NO_COSTLY_OVERVIEW` branch (configuration
default `NO`), and the delegation to `RasterIOResampled` for smooth
resampling algorithms (modelled requests use nearest-neighbour). -/

theorem lockRun_append (xs ys : List Ev) :
    ∀ h, lockRun h (xs ++ ys) =
      (lockRun h xs).bind (fun h' => lockRun h' ys) := by
  induction xs with
  | nil => intro h; simp [lockRun]
  | cons ev rest ih =>
    intro h
    cases ev with
    | fetch bx byy ji ok =>
      by_cases h0 : h = 0
      · simp [lockRun, h0, ih]
      · simp [lockRun, h0]
    | drop =>
      by_cases h1 : h = 1
      · simp [lockRun, h1, ih]
      · simp [lockRun, h1]
    | check bb => simp [lockRun, ih]
    | zeroFill => simp [lockRun, ih]
    | progress ok => simp [lockRun, ih]

theorem guardRun_append (xs ys : List Ev) :
    ∀ s, guardRun s (xs ++ ys) =
      (guardRun s xs).bind (fun s' => guardRun s' ys) := by
  induction xs with
  | nil => intro s; simp [guardRun]
  | cons ev rest ih =>
    intro s
    cases s with
    | stopped => simp [guardRun]
    | running c =>
      cases ev with
      | fetch bx byy ji ok =>
        by_cases hc : c
        · simp [guardRun, hc, ih]
        · simp [guardRun, hc]
      | check bb => cases bb <;> simp [guardRun, ih]
      | drop => simp [guardRun, ih]
      | zeroFill => simp [guardRun, ih]
      | progress ok => simp [guardRun, ih]

theorem lockRun_zfopt (c : Bool) (h : Nat) :
    lockRun h (if c then [Ev.zeroFill] else []) = some h := by
  cases c <;> simp [lockRun]

theorem guardRun_zfopt (c : Bool) :
    guardRun (GSt.running false) (if c then [Ev.zeroFill] else []) =
      some (GSt.running false) := by
  cases c <;> simp [guardRun]

theorem case1Acquire_spec (b : BandB) (e : EnvB) (r : ReqB)
    (iBufYOff nLBlockY : Int) (cur : Option (Int → Nat)) (st : IOState) :
    (∀ early, case1Acquire b e r iBufYOff nLBlockY cur st = Sum.inl early →
      lockRun (curHeld cur) early.2.2 = some 0 ∧
      ∃ s, guardRun (GSt.running false) early.2.2 = some s ∧
        (s = GSt.stopped → early.1 = CPLErr.ceInterrupted)) ∧
    (∀ blk, case1Acquire b e r iBufYOff nLBlockY cur st = Sum.inr blk →
      lockRun (curHeld cur) blk.2.2.2 = some 1 ∧
      guardRun (GSt.running false) blk.2.2.2 = some (GSt.running false)) := by
  constructor
  · intro early heq
    cases cur with
    | none =>
      unfold case1Acquire at heq
      simp only at heq
      split at heq
      · split at heq
        · cases heq
          refine ⟨by simp [curHeld, lockRun], GSt.stopped, ?_, fun _ => rfl⟩
          simp [guardRun]
        · split at heq
          · cases heq
            refine ⟨?_, GSt.running false, ?_, fun h => by cases h⟩
            · simp [curHeld, lockRun]
            · simp [guardRun]
          · cases heq
      · cases heq
        refine ⟨by simp [curHeld, lockRun], GSt.running false,
          by simp [guardRun], fun h => by cases h⟩
    | some d =>
      unfold case1Acquire at heq
      simp only at heq
      split at heq
      · split at heq
        · cases heq
          refine ⟨by simp [curHeld, lockRun], GSt.stopped, ?_, fun _ => rfl⟩
          simp [guardRun]
        · split at heq
          · cases heq
            refine ⟨?_, GSt.running false, ?_, fun h => by cases h⟩
            · simp [curHeld, lockRun]
            · simp [guardRun]
          · cases heq
      · cases heq
  · intro blk heq
    cases cur with
    | none =>
      unfold case1Acquire at heq
      simp only at heq
      split at heq
      · split at heq
        · cases heq
        · split at heq
          · cases heq
          · cases heq
            constructor
            · simp only [curHeld, lockRun, lockRun_append]
              simp [lockRun]
              split <;> simp [lockRun]
            · simp only [guardRun, guardRun_append]
              simp [guardRun]
              split <;> simp [guardRun]
      · cases heq
    | some d =>
      unfold case1Acquire at heq
      simp only at heq
      split at heq
      · split at heq
        · cases heq
        · split at heq
          · cases heq
          · cases heq
            constructor
            · simp only [curHeld, lockRun, lockRun_append]
              simp [lockRun]
              split <;> simp [lockRun]
            · simp only [guardRun, guardRun_append]
              simp [guardRun]
              split <;> simp [guardRun]
      · cases heq
        constructor
        · simp [curHeld, lockRun]
        · simp [guardRun]

theorem guardRun_progress_cons (evs rest : List Ev) (err : CPLErr)
    (h1 : guardRun (GSt.running false) evs = some (GSt.running false))
    (h2 : ∃ s, guardRun (GSt.running false) rest = some s ∧
      (s = GSt.stopped → err = CPLErr.ceInterrupted)) :
    ∃ s, guardRun (GSt.running false) (evs ++ Ev.progress true :: rest) =
        some s ∧
      (s = GSt.stopped → err = CPLErr.ceInterrupted) := by
  obtain ⟨s, hs, hi⟩ := h2
  exact ⟨s, by simp [guardRun_append, h1, guardRun, hs], hi⟩

theorem case1Go_locks (b : BandB) (e : EnvB) (r : ReqB) :
    ∀ (fuel : Nat) (iBufYOff nLBlockY : Int) (cur : Option (Int → Nat))
      (st : IOState),
      lockRun (curHeld cur)
        (case1Go b e r fuel iBufYOff nLBlockY cur st).2.2 = some 0 := by
  intro fuel
  induction fuel with
  | zero =>
    intro iBufYOff nLBlockY cur st
    cases cur <;> simp [case1Go, curHeld, lockRun]
  | succ rows ih =>
    intro iBufYOff nLBlockY cur st
    simp only [case1Go]
    split
    · rename_i early heq
      exact ((case1Acquire_spec b e r iBufYOff nLBlockY cur st).1 early
        heq).1
    · rename_i blkY d st1 evs heq
      have hacq := ((case1Acquire_spec b e r iBufYOff nLBlockY cur st).2
        ⟨blkY, d, st1, evs⟩ heq).1
      simp only at hacq
      split
      · simp only [lockRun_append, hacq, Option.some_bind, lockRun]
        exact ih (iBufYOff + 1) blkY (some _) _
      · simp only [lockRun_append, hacq, Option.some_bind, lockRun]
        rfl

theorem case1Go_guard (b : BandB) (e : EnvB) (r : ReqB) :
    ∀ (fuel : Nat) (iBufYOff nLBlockY : Int) (cur : Option (Int → Nat))
      (st : IOState),
      ∃ s, guardRun (GSt.running false)
          (case1Go b e r fuel iBufYOff nLBlockY cur st).2.2 = some s ∧
        (s = GSt.stopped →
          (case1Go b e r fuel iBufYOff nLBlockY cur st).1 =
            CPLErr.ceInterrupted) := by
  intro fuel
  induction fuel with
  | zero =>
    intro iBufYOff nLBlockY cur st
    cases cur with
    | none =>
      exact ⟨GSt.running false, by simp [case1Go, guardRun],
        fun h => by cases h⟩
    | some d =>
      exact ⟨GSt.running false, by simp [case1Go, guardRun],
        fun h => by cases h⟩
  | succ rows ih =>
    intro iBufYOff nLBlockY cur st
    simp only [case1Go]
    split
    · rename_i early heq
      exact ((case1Acquire_spec b e r iBufYOff nLBlockY cur st).1 early
        heq).2
    · rename_i blkY d st1 evs heq
      have hacq := ((case1Acquire_spec b e r iBufYOff nLBlockY cur st).2
        ⟨blkY, d, st1, evs⟩ heq).2
      simp only at hacq
      split
      · exact guardRun_progress_cons evs _ _ hacq (ih _ _ _ _)
      · refine ⟨GSt.running false, ?_, fun h => by cases h⟩
        simp [guardRun_append, hacq, guardRun]

theorem lockRun_case2seg (c : Bool) (rest : List Ev) (bx byy : Int)
    (ji : Bool) (h : lockRun 0 rest = some 0) :
    lockRun 0 ((Ev.check false :: Ev.fetch bx byy ji true ::
      ((if c then [Ev.zeroFill] else []) ++ [Ev.drop])) ++ rest) =
      some 0 := by
  cases c <;> simp [lockRun, lockRun_append, h]

theorem guardRun_case2seg (c : Bool) (rest : List Ev) (bx byy : Int)
    (ji : Bool) (err : Prop)
    (h : ∃ s, guardRun (GSt.running false) rest = some s ∧
      (s = GSt.stopped → err)) :
    ∃ s, guardRun (GSt.running false)
        ((Ev.check false :: Ev.fetch bx byy ji true ::
          ((if c then [Ev.zeroFill] else []) ++ [Ev.drop])) ++ rest) =
        some s ∧
      (s = GSt.stopped → err) := by
  obtain ⟨s, hs, hi⟩ := h
  exact ⟨s, by cases c <;> simp [guardRun, guardRun_append, hs], hi⟩

theorem case2InnerGo_locks (b : BandB) (e : EnvB) (r : ReqB)
    (nLBlockY iSrcY iBufYOff : Int) :
    ∀ (fuelX : Nat) (iSrcX nLBlockX iBufOffset : Int) (st : IOState),
      lockRun 0 (case2InnerGo b e r nLBlockY iSrcY iBufYOff fuelX iSrcX
        nLBlockX iBufOffset st).2.2 = some 0 := by
  intro fuelX
  induction fuelX with
  | zero =>
    intro iSrcX nLBlockX iBufOffset st
    simp [case2InnerGo, lockRun]
  | succ fx ih =>
    intro iSrcX nLBlockX iBufOffset st
    simp only [case2InnerGo]
    split
    · split
      · simp [lockRun]
      · split
        · simp [lockRun]
        · exact lockRun_case2seg _ _ _ _ _ (ih _ _ _ _)
    · simp [lockRun]

theorem case2InnerGo_guard (b : BandB) (e : EnvB) (r : ReqB)
    (nLBlockY iSrcY iBufYOff : Int) :
    ∀ (fuelX : Nat) (iSrcX nLBlockX iBufOffset : Int) (st : IOState),
      ∃ s, guardRun (GSt.running false)
          (case2InnerGo b e r nLBlockY iSrcY iBufYOff fuelX iSrcX
            nLBlockX iBufOffset st).2.2 = some s ∧
        (s = GSt.stopped →
          (case2InnerGo b e r nLBlockY iSrcY iBufYOff fuelX iSrcX
            nLBlockX iBufOffset st).1 = some CPLErr.ceInterrupted) := by
  intro fuelX
  induction fuelX with
  | zero =>
    intro iSrcX nLBlockX iBufOffset st
    exact ⟨GSt.running false, by simp [case2InnerGo, guardRun],
      fun h => by cases h⟩
  | succ fx ih =>
    intro iSrcX nLBlockX iBufOffset st
    simp only [case2InnerGo]
    split
    · split
      · exact ⟨GSt.stopped, by simp [guardRun], fun _ => rfl⟩
      · split
        · exact ⟨GSt.running false, by simp [guardRun],
            fun h => by cases h⟩
        · exact guardRun_case2seg _ _ _ _ _ _ (ih _ _ _ _)
    · exact ⟨GSt.running false, by simp [guardRun], fun h => by cases h⟩

theorem case2Go_locks (b : BandB) (e : EnvB) (r : ReqB) :
    ∀ (fuelY : Nat) (iBufYOff iSrcY : Int) (st : IOState),
      lockRun 0 (case2Go b e r fuelY iBufYOff iSrcY st).2.2 = some 0 := by
  intro fuelY
  induction fuelY with
  | zero =>
    intro iBufYOff iSrcY st
    simp [case2Go, lockRun]
  | succ fy ih =>
    intro iBufYOff iSrcY st
    simp only [case2Go]
    split
    · split
      · exact case2InnerGo_locks b e r _ _ _ _ _ _ _ _
      · split
        · simp only [lockRun_append, case2InnerGo_locks b e r _ _ _ _ _ _
            _ _, Option.some_bind, lockRun]
          exact ih _ _ _
        · simp only [lockRun_append, case2InnerGo_locks b e r _ _ _ _ _ _
            _ _, Option.some_bind, lockRun]
    · simp [lockRun]

theorem genReadRowsGo_locks (b : BandB) (e : EnvB) (r : ReqB)
    (dfXInc dfYInc : CQ) (nLBlockX nLBlockY : Int) (d : Int → Nat)
    (iBufYLim : Int) :
    ∀ (fuel : Nat) (iBufYOff : Int) (eErr : CPLErr) (st : IOState)
      (h : Nat),
      lockRun h (genReadRowsGo b e r dfXInc dfYInc nLBlockX nLBlockY d
        iBufYLim fuel iBufYOff eErr st).2.2 = some h := by
  intro fuel
  induction fuel with
  | zero =>
    intro iBufYOff eErr st h
    simp [genReadRowsGo, lockRun]
  | succ f ih =>
    intro iBufYOff eErr st h
    simp only [genReadRowsGo]
    split
    · split
      · simp [lockRun]
      · split
        · simp only [lockRun]
          exact ih _ _ _ _
        · simp [lockRun]
    · simp [lockRun]

theorem genReadRowsGo_guard (b : BandB) (e : EnvB) (r : ReqB)
    (dfXInc dfYInc : CQ) (nLBlockX nLBlockY : Int) (d : Int → Nat)
    (iBufYLim : Int) :
    ∀ (fuel : Nat) (iBufYOff : Int) (eErr : CPLErr) (st : IOState),
      guardRun (GSt.running false) (genReadRowsGo b e r dfXInc dfYInc
        nLBlockX nLBlockY d iBufYLim fuel iBufYOff eErr st).2.2 =
        some (GSt.running false) := by
  intro fuel
  induction fuel with
  | zero =>
    intro iBufYOff eErr st
    simp [genReadRowsGo, guardRun]
  | succ f ih =>
    intro iBufYOff eErr st
    simp only [genReadRowsGo]
    split
    · split
      · simp [guardRun]
      · split
        · simp only [guardRun]
          exact ih _ _ _
        · simp [guardRun]
    · simp [guardRun]

theorem genReadColsGo_locks (b : BandB) (e : EnvB) (r : ReqB)
    (dfXInc dfYInc : CQ) (nLBlockY nEndBlockX : Int) :
    ∀ (fuel : Nat) (nLBlockX : Int) (eErr : CPLErr)
      (cur : Option ((Int × Int) × (Int → Nat))) (st : IOState),
      lockRun (curHeldR cur)
          (genReadColsGo b e r dfXInc dfYInc nLBlockY nEndBlockX fuel
            nLBlockX eErr cur st).2.2.2.2 =
        some (curHeldR (genReadColsGo b e r dfXInc dfYInc nLBlockY
          nEndBlockX fuel nLBlockX eErr cur st).2.2.1) ∧
      (∀ err, (genReadColsGo b e r dfXInc dfYInc nLBlockY nEndBlockX fuel
          nLBlockX eErr cur st).1 = some err →
        (genReadColsGo b e r dfXInc dfYInc nLBlockY nEndBlockX fuel
          nLBlockX eErr cur st).2.2.1 = none) := by
  intro fuel
  induction fuel with
  | zero =>
    intro nLBlockX eErr cur st
    constructor
    · simp [genReadColsGo, lockRun]
    · intro err h
      exact Option.noConfusion h
  | succ f ih =>
    intro nLBlockX eErr cur st
    cases cur with
    | none =>
      simp only [genReadColsGo]
      split
      · split
        · constructor
          · simp [curHeldR, lockRun]
          · intro err h
            rfl
        · split
          · constructor
            · simp [curHeldR, lockRun]
            · intro err h
              exact Option.noConfusion h
          · constructor
            · simp [curHeldR, lockRun, lockRun_append,
                genReadRowsGo_locks]
              exact (ih _ _ (some _) _).1
            · intro err h
              exact (ih _ _ (some _) _).2 err h
      · constructor
        · simp [curHeldR, lockRun]
        · intro err h
          exact Option.noConfusion h
    | some held =>
      simp only [genReadColsGo]
      split
      · split
        · constructor
          · simp [curHeldR, lockRun]
          · intro err h
            rfl
        · split
          · constructor
            · simp [curHeldR, lockRun]
            · intro err h
              exact Option.noConfusion h
          · constructor
            · simp [curHeldR, lockRun, lockRun_append,
                genReadRowsGo_locks]
              exact (ih _ _ (some _) _).1
            · intro err h
              exact (ih _ _ (some _) _).2 err h
      · constructor
        · simp [curHeldR, lockRun]
        · intro err h
          exact Option.noConfusion h

theorem genReadColsGo_guard (b : BandB) (e : EnvB) (r : ReqB)
    (dfXInc dfYInc : CQ) (nLBlockY nEndBlockX : Int) :
    ∀ (fuel : Nat) (nLBlockX : Int) (eErr : CPLErr)
      (cur : Option ((Int × Int) × (Int → Nat))) (st : IOState),
      (∃ s, guardRun (GSt.running false)
          (genReadColsGo b e r dfXInc dfYInc nLBlockY nEndBlockX fuel
            nLBlockX eErr cur st).2.2.2.2 = some s ∧
        (s = GSt.stopped →
          (genReadColsGo b e r dfXInc dfYInc nLBlockY nEndBlockX fuel
            nLBlockX eErr cur st).1 = some CPLErr.ceInterrupted)) ∧
      ((genReadColsGo b e r dfXInc dfYInc nLBlockY nEndBlockX fuel
          nLBlockX eErr cur st).1 = none →
        guardRun (GSt.running false)
          (genReadColsGo b e r dfXInc dfYInc nLBlockY nEndBlockX fuel
            nLBlockX eErr cur st).2.2.2.2 = some (GSt.running false)) := by
  intro fuel
  induction fuel with
  | zero =>
    intro nLBlockX eErr cur st
    constructor
    · exact ⟨GSt.running false, by simp [genReadColsGo, guardRun],
        fun h => by cases h⟩
    · intro h
      simp [genReadColsGo, guardRun]
  | succ f ih =>
    intro nLBlockX eErr cur st
    cases cur with
    | none =>
      simp only [genReadColsGo]
      split
      · split
        · constructor
          · exact ⟨GSt.stopped, by simp [guardRun], fun _ => rfl⟩
          · intro h
            exact Option.noConfusion h
        · split
          · constructor
            · exact ⟨GSt.running false, by simp [guardRun],
                fun h => by cases h⟩
            · intro h
              simp [guardRun]
          · constructor
            · obtain ⟨s, hs, hi⟩ := (ih _ _ (some _) _).1
              refine ⟨s, ?_, hi⟩
              simp [guardRun, guardRun_append, genReadRowsGo_guard]
              exact hs
            · intro h
              have h2 := (ih _ _ (some _) _).2 h
              simp [guardRun, guardRun_append, genReadRowsGo_guard]
              exact h2
      · constructor
        · exact ⟨GSt.running false, by simp [guardRun],
            fun h => by cases h⟩
        · intro h
          simp [guardRun]
    | some held =>
      simp only [genReadColsGo]
      split
      · split
        · constructor
          · exact ⟨GSt.stopped, by simp [guardRun], fun _ => rfl⟩
          · intro h
            exact Option.noConfusion h
        · split
          · constructor
            · exact ⟨GSt.running false, by simp [guardRun],
                fun h => by cases h⟩
            · intro h
              simp [guardRun]
          · constructor
            · obtain ⟨s, hs, hi⟩ := (ih _ _ (some _) _).1
              refine ⟨s, ?_, hi⟩
              simp [guardRun, guardRun_append, genReadRowsGo_guard]
              exact hs
            · intro h
              have h2 := (ih _ _ (some _) _).2 h
              simp [guardRun, guardRun_append, genReadRowsGo_guard]
              exact h2
      · constructor
        · exact ⟨GSt.running false, by simp [guardRun],
            fun h => by cases h⟩
        · intro h
          simp [guardRun]

theorem genReadGo_locks (b : BandB) (e : EnvB) (r : ReqB)
    (dfXInc dfYInc : CQ) (nStartBlockX nEndBlockX nEndBlockY : Int) :
    ∀ (fuel : Nat) (nLBlockY : Int) (eErr : CPLErr)
      (cur : Option ((Int × Int) × (Int → Nat))) (st : IOState),
      lockRun (curHeldR cur)
        (genReadGo b e r dfXInc dfYInc nStartBlockX nEndBlockX nEndBlockY
          fuel nLBlockY eErr cur st).2.2 = some 0 := by
  intro fuel
  induction fuel with
  | zero =>
    intro nLBlockY eErr cur st
    cases cur with
    | none => simp [genReadGo, curHeldR, lockRun]
    | some held =>
      obtain ⟨⟨bx, byy⟩, d⟩ := held
      simp [genReadGo, curHeldR, lockRun]
  | succ f ih =>
    intro nLBlockY eErr cur st
    have hl := genReadColsGo_locks b e r dfXInc dfYInc nLBlockY nEndBlockX
      ((nEndBlockX - nStartBlockX).toNat + 1) nStartBlockX eErr cur st
    simp only [genReadGo]
    split
    · split
      · rename_i err heq
        rw [hl.1, hl.2 err heq]
        rfl
      · rename_i heq
        rw [lockRun_append, hl.1, Option.some_bind]
        exact ih _ _ _ _
    · cases cur with
      | none => simp [curHeldR, lockRun]
      | some held =>
        obtain ⟨⟨bx, byy⟩, d⟩ := held
        simp [curHeldR, lockRun]

theorem genReadGo_guard (b : BandB) (e : EnvB) (r : ReqB)
    (dfXInc dfYInc : CQ) (nStartBlockX nEndBlockX nEndBlockY : Int) :
    ∀ (fuel : Nat) (nLBlockY : Int) (eErr : CPLErr)
      (cur : Option ((Int × Int) × (Int → Nat))) (st : IOState),
      ∃ s, guardRun (GSt.running false)
          (genReadGo b e r dfXInc dfYInc nStartBlockX nEndBlockX
            nEndBlockY fuel nLBlockY eErr cur st).2.2 = some s ∧
        (s = GSt.stopped →
          (genReadGo b e r dfXInc dfYInc nStartBlockX nEndBlockX
            nEndBlockY fuel nLBlockY eErr cur st).1 =
            CPLErr.ceInterrupted) := by
  intro fuel
  induction fuel with
  | zero =>
    intro nLBlockY eErr cur st
    cases cur with
    | none =>
      exact ⟨GSt.running false, by simp [genReadGo, guardRun],
        fun h => by cases h⟩
    | some held =>
      obtain ⟨⟨bx, byy⟩, d⟩ := held
      exact ⟨GSt.running false, by simp [genReadGo, guardRun],
        fun h => by cases h⟩
  | succ f ih =>
    intro nLBlockY eErr cur st
    have hg := genReadColsGo_guard b e r dfXInc dfYInc nLBlockY nEndBlockX
      ((nEndBlockX - nStartBlockX).toNat + 1) nStartBlockX eErr cur st
    simp only [genReadGo]
    split
    · split
      · rename_i err heq
        obtain ⟨s, hs, hi⟩ := hg.1
        refine ⟨s, hs, fun hstop => ?_⟩
        have hx := hi hstop
        rw [heq] at hx
        exact Option.some.inj hx
      · rename_i heq
        have h1 := hg.2 heq
        obtain ⟨s, hs, hi⟩ := ih (nLBlockY + 1) _ _ _
        refine ⟨s, ?_, hi⟩
        rw [guardRun_append, h1, Option.some_bind]
        exact hs
    · cases cur with
      | none =>
        exact ⟨GSt.running false, by simp [guardRun],
          fun h => by cases h⟩
      | some held =>
        obtain ⟨⟨bx, byy⟩, d⟩ := held
        exact ⟨GSt.running false, by simp [guardRun],
          fun h => by cases h⟩

theorem guardRun_case2seg_none (c : Bool) (rest : List Ev) (bx byy : Int)
    (ji : Bool)
    (h : guardRun (GSt.running false) rest = some (GSt.running false)) :
    guardRun (GSt.running false)
        ((Ev.check false :: Ev.fetch bx byy ji true ::
          ((if c then [Ev.zeroFill] else []) ++ [Ev.drop])) ++ rest) =
      some (GSt.running false) := by
  cases c <;> simp [guardRun, guardRun_append, h]

theorem case2InnerGo_guard_none (b : BandB) (e : EnvB) (r : ReqB)
    (nLBlockY iSrcY iBufYOff : Int) :
    ∀ (fuelX : Nat) (iSrcX nLBlockX iBufOffset : Int) (st : IOState),
      (case2InnerGo b e r nLBlockY iSrcY iBufYOff fuelX iSrcX nLBlockX
        iBufOffset st).1 = none →
      guardRun (GSt.running false)
        (case2InnerGo b e r nLBlockY iSrcY iBufYOff fuelX iSrcX nLBlockX
          iBufOffset st).2.2 = some (GSt.running false) := by
  intro fuelX
  induction fuelX with
  | zero =>
    intro iSrcX nLBlockX iBufOffset st h
    simp [case2InnerGo, guardRun]
  | succ fx ih =>
    intro iSrcX nLBlockX iBufOffset st
    simp only [case2InnerGo]
    split
    · split
      · intro h
        exact Option.noConfusion h
      · split
        · intro h
          exact Option.noConfusion h
        · intro h
          exact guardRun_case2seg_none _ _ _ _ _ (ih _ _ _ _ h)
    · intro h
      simp [guardRun]

theorem case2Go_guard (b : BandB) (e : EnvB) (r : ReqB) :
    ∀ (fuelY : Nat) (iBufYOff iSrcY : Int) (st : IOState),
      ∃ s, guardRun (GSt.running false)
          (case2Go b e r fuelY iBufYOff iSrcY st).2.2 = some s ∧
        (s = GSt.stopped →
          (case2Go b e r fuelY iBufYOff iSrcY st).1 =
            CPLErr.ceInterrupted) := by
  intro fuelY
  induction fuelY with
  | zero =>
    intro iBufYOff iSrcY st
    exact ⟨GSt.running false, by simp [case2Go, guardRun],
      fun h => by cases h⟩
  | succ fy ih =>
    intro iBufYOff iSrcY st
    simp only [case2Go]
    split
    · split
      · rename_i err heq
        obtain ⟨s, hs, hi⟩ := case2InnerGo_guard b e r _ _ _ _ _ _ _ _
        refine ⟨s, hs, fun hstop => ?_⟩
        have hx := hi hstop
        rw [heq] at hx
        exact Option.some.inj hx
      · rename_i heq
        have h1 := case2InnerGo_guard_none b e r _ _ _ _ _ _ _ _ heq
        split
        · obtain ⟨s, hs, hi⟩ := ih _ _ _
          refine ⟨s, ?_, hi⟩
          rw [guardRun_append, h1, Option.some_bind]
          simpa [guardRun] using hs
        · refine ⟨GSt.running false, ?_, fun h => by cases h⟩
          rw [guardRun_append, h1, Option.some_bind]
          simp [guardRun]
    · exact ⟨GSt.running false, by simp [guardRun], fun h => by cases h⟩

/-- C8: throughout every execution of the 1:1 (non-resampled) RasterIO
paths — any `irasterIO` call with an integer window (`fpWin = none`) and
unscaled buffer sizes — the lock automaton accepts the event trace
starting and ending with zero locks held: a block fetch only ever
happens with no lock held, and every acquired lock is dropped before the
call returns, on success, failure, and interruption alike. -/
theorem c8_single_lock_discipline (b : BandB) (e : EnvB) (r : ReqB)
    (st : IOState) (hfp : r.fpWin = none)
    (hx : r.nXSize = r.nBufXSize) (hy : r.nYSize = r.nBufYSize) :
    lockRun 0 ( irasterIO b e r st).trace = some 0 := by
  unfold irasterIO
  split
  · simp [lockRun]
  · split
    · simp [lockRun]
    · simp only [hfp]
      split
      · exact case1Go_locks b e r _ _ _ none st
      · split
        · exact case2Go_locks b e r _ _ _ st
        · rename_i hno
          exact absurd ⟨hx, hy, trivial⟩ hno

theorem c8_single_lock_discipline_witness :
    (⟨GDALRWFlag.GF_Read, 0, 0, 4, 4, 4, 4, 1, 4, none⟩ : ReqB).fpWin =
        none ∧
      lockRun 0 ( irasterIO ⟨4, 4, 4, 1, CPLErr.ceNone⟩
        ⟨fun _ _ => some (fun _ => 3), fun _ _ _ => 0, fun _ => false,
          fun _ => true⟩
        ⟨GDALRWFlag.GF_Read, 0, 0, 4, 4, 4, 4, 1, 4, none⟩
        ⟨fun _ => 0, fun _ _ => none, 0, 0⟩).trace = some 0 :=
  ⟨rfl, c8_single_lock_discipline _ _ _ _ rfl rfl rfl⟩

/-- C7 (amended): in every packed (case 1), 1:1 (case 2), and
nearest-neighbour-read RasterIO call — that is, every `irasterIO` call
that is a read, or a write with an integer 1:1 window — the polling
automaton accepts the event trace: every block fetch is immediately
preceded by a negative interruption poll, nothing follows a positive
poll, and if a poll came back positive the call returns
`CE_Interrupted`, which is a different status value from `CE_Failure`.
(The general resampled write path performs no poll; see the
counterexample.) -/
theorem c7_interruption_polling (b : BandB) (e : EnvB) (r : ReqB)
    (st : IOState)
    (hpath : r.flag = GDALRWFlag.GF_Read ∨
      (r.fpWin = none ∧ r.nXSize = r.nBufXSize ∧
        r.nYSize = r.nBufYSize)) :
    (∃ s, guardRun (GSt.running false) ( irasterIO b e r st).trace =
        some s ∧
      (s = GSt.stopped →
        ( irasterIO b e r st).err = CPLErr.ceInterrupted)) ∧
    CPLErr.ceInterrupted ≠ CPLErr.ceFailure := by
  refine ⟨?_, by decide⟩
  unfold irasterIO
  split
  · exact ⟨GSt.running false, by simp [guardRun], fun h => by cases h⟩
  · split
    · exact ⟨GSt.running false, by simp [guardRun], fun h => by cases h⟩
    · rcases hpath with hread | ⟨hfp, hx, hy⟩
      · repeat' (first | split | simp only [])
        all_goals
          first
          | exact case1Go_guard b e r _ _ _ none st
          | exact case2Go_guard b e r _ _ _ st
          | apply genReadGo_guard
          | simp_all
      · simp only [hfp]
        split
        · exact case1Go_guard b e r _ _ _ none st
        · split
          · exact case2Go_guard b e r _ _ _ st
          · rename_i hno
            exact absurd ⟨hx, hy, trivial⟩ hno

theorem c7_interruption_polling_witness :
    ((⟨GDALRWFlag.GF_Read, 0, 0, 4, 4, 2, 2, 1, 2, none⟩ : ReqB).flag =
        GDALRWFlag.GF_Read ∨
      ((⟨GDALRWFlag.GF_Read, 0, 0, 4, 4, 2, 2, 1, 2, none⟩ : ReqB).fpWin =
          none ∧ (4 : Int) = 2 ∧ (4 : Int) = 2)) ∧
    ((∃ s, guardRun (GSt.running false)
        ( irasterIO ⟨4, 4, 2, 2, CPLErr.ceNone⟩
          ⟨fun _ _ => some (fun _ => 3), fun _ _ _ => 0, fun _ => true,
            fun _ => true⟩
          ⟨GDALRWFlag.GF_Read, 0, 0, 4, 4, 2, 2, 1, 2, none⟩
          ⟨fun _ => 0, fun _ _ => none, 0, 0⟩).trace = some s ∧
      (s = GSt.stopped →
        ( irasterIO ⟨4, 4, 2, 2, CPLErr.ceNone⟩
          ⟨fun _ _ => some (fun _ => 3), fun _ _ _ => 0, fun _ => true,
            fun _ => true⟩
          ⟨GDALRWFlag.GF_Read, 0, 0, 4, 4, 2, 2, 1, 2, none⟩
          ⟨fun _ => 0, fun _ _ => none, 0, 0⟩).err =
          CPLErr.ceInterrupted)) ∧
    CPLErr.ceInterrupted ≠ CPLErr.ceFailure) :=
  ⟨Or.inl rfl,
    c7_interruption_polling ⟨4, 4, 2, 2, CPLErr.ceNone⟩
      ⟨fun _ _ => some (fun _ => 3), fun _ _ _ => 0, fun _ => true,
        fun _ => true⟩
      ⟨GDALRWFlag.GF_Read, 0, 0, 4, 4, 2, 2, 1, 2, none⟩
      ⟨fun _ => 0, fun _ _ => none, 0, 0⟩ (Or.inl rfl)⟩

/-- C7 counterexample: the general (resampled) write path never polls
the interruption flag.  With a dataset whose `Interrupted()` is
constantly true, a 3×3→1×1 write (general path) still fetches a block,
performs no poll at all (no `check` event), and returns `CE_None`
instead of aborting with `CE_Interrupted`. -/
theorem c7_general_write_no_poll_counterexample :
    (∀ n, (⟨fun _ _ => some (fun _ => 9), fun _ _ _ => 0, fun _ => true,
        fun _ => true⟩ : EnvB).interrupt n = true) ∧
    ( irasterIO ⟨3, 3, 4, 4, CPLErr.ceNone⟩
        ⟨fun _ _ => some (fun _ => 9), fun _ _ _ => 0, fun _ => true,
          fun _ => true⟩
        ⟨GDALRWFlag.GF_Write, 0, 0, 3, 3, 1, 1, 1, 1, none⟩
        ⟨fun _ => 7, fun _ _ => none, 0, 0⟩).trace =
      [Ev.fetch 0 0 false true, Ev.progress true, Ev.progress true,
        Ev.progress true, Ev.drop] ∧
    ( irasterIO ⟨3, 3, 4, 4, CPLErr.ceNone⟩
        ⟨fun _ _ => some (fun _ => 9), fun _ _ _ => 0, fun _ => true,
          fun _ => true⟩
        ⟨GDALRWFlag.GF_Write, 0, 0, 3, 3, 1, 1, 1, 1, none⟩
        ⟨fun _ => 7, fun _ _ => none, 0, 0⟩).err = CPLErr.ceNone :=
  ⟨fun _ => rfl, by decide, by decide⟩

/-- C1 (amended): the stored deferred write-flush error is replayed and
cleared only on the next WRITE operation: a write on a band with a
pending flush error returns that error at once — before any block fetch
or buffer access (empty event trace, untouched call state) — and clears
the stored error. -/
theorem c1_deferred_flush_error_write_only (b : BandB) (e : EnvB)
    (r : ReqB) (st : IOState) (hw : r.flag = GDALRWFlag.GF_Write)
    (hne : b.flushErr ≠ CPLErr.ceNone) :
    irasterIO b e r st = ⟨b.flushErr, st, [], CPLErr.ceNone⟩ := by
  unfold irasterIO
  split
  · rfl
  · rename_i hno
    exact absurd ⟨hw, hne⟩ hno

theorem c1_deferred_flush_error_write_only_witness :
    (⟨GDALRWFlag.GF_Write, 0, 0, 1, 1, 1, 1, 1, 1, none⟩ : ReqB).flag =
        GDALRWFlag.GF_Write ∧
      (⟨1, 1, 1, 1, CPLErr.ceFailure⟩ : BandB).flushErr ≠
        CPLErr.ceNone ∧
      irasterIO ⟨1, 1, 1, 1, CPLErr.ceFailure⟩
          ⟨fun _ _ => some (fun _ => 42), fun _ _ _ => 0, fun _ => false,
            fun _ => true⟩
          ⟨GDALRWFlag.GF_Write, 0, 0, 1, 1, 1, 1, 1, 1, none⟩
          ⟨fun _ => 7, fun _ _ => none, 0, 0⟩ =
        ⟨CPLErr.ceFailure, ⟨fun _ => 7, fun _ _ => none, 0, 0⟩, [],
          CPLErr.ceNone⟩ :=
  ⟨rfl, by decide,
    c1_deferred_flush_error_write_only _ _ _ _ rfl (by decide)⟩

/-- C1 counterexample: a READ on a band with a stored flush error is not
failed by the guard (`eRWFlag == GF_Write` is part of the check): the
read returns `CE_None`, leaves the stored error in place, fetches a
block and fills the buffer. -/
theorem c1_read_ignores_flush_error_counterexample :
    ( irasterIO ⟨1, 1, 1, 1, CPLErr.ceFailure⟩
        ⟨fun _ _ => some (fun _ => 42), fun _ _ _ => 0, fun _ => false,
          fun _ => true⟩
        ⟨GDALRWFlag.GF_Read, 0, 0, 1, 1, 1, 1, 1, 1, none⟩
        ⟨fun _ => 7, fun _ _ => none, 0, 0⟩).err = CPLErr.ceNone ∧
    ( irasterIO ⟨1, 1, 1, 1, CPLErr.ceFailure⟩
        ⟨fun _ _ => some (fun _ => 42), fun _ _ _ => 0, fun _ => false,
          fun _ => true⟩
        ⟨GDALRWFlag.GF_Read, 0, 0, 1, 1, 1, 1, 1, 1, none⟩
        ⟨fun _ => 7, fun _ _ => none, 0, 0⟩).flushErrAfter =
      CPLErr.ceFailure ∧
    ( irasterIO ⟨1, 1, 1, 1, CPLErr.ceFailure⟩
        ⟨fun _ _ => some (fun _ => 42), fun _ _ _ => 0, fun _ => false,
          fun _ => true⟩
        ⟨GDALRWFlag.GF_Read, 0, 0, 1, 1, 1, 1, 1, 1, none⟩
        ⟨fun _ => 7, fun _ _ => none, 0, 0⟩).st.buf 0 = 42 ∧
    ( irasterIO ⟨1, 1, 1, 1, CPLErr.ceFailure⟩
        ⟨fun _ _ => some (fun _ => 42), fun _ _ _ => 0, fun _ => false,
          fun _ => true⟩
        ⟨GDALRWFlag.GF_Read, 0, 0, 1, 1, 1, 1, 1, 1, none⟩
        ⟨fun _ => 7, fun _ _ => none, 0, 0⟩).trace ≠ [] :=
  ⟨by decide, by decide, by decide, by decide⟩

/-- C2 (amended): reading the full 4×4 window of a 4×4 byte raster
(2×2 blocks) into a 2×2 buffer with the nearest-sample mapping
`(i + 0.5) * 2 + 0 + EPS` returns, for every pixel-value assignment `v`,
the source pixels at coordinates (1,1), (3,1), (1,3), (3,3) — the
truncation of `(i + 0.5) * 2` is 1 and 3, not 0 and 2. -/
theorem c2_decimated_read_nearest_pixels (v : Int → Int → Nat) :
    ( irasterIO ⟨4, 4, 2, 2, CPLErr.ceNone⟩
        ⟨fun bx byy => some (fun o =>
            v (bx * 2 + Int.tmod o 2) (byy * 2 + Int.tdiv o 2)),
          fun _ _ _ => 0, fun _ => false, fun _ => true⟩
        ⟨GDALRWFlag.GF_Read, 0, 0, 4, 4, 2, 2, 1, 2, none⟩
        ⟨fun _ => 0, fun _ _ => none, 0, 0⟩).st.buf 0 = v 1 1 ∧
    ( irasterIO ⟨4, 4, 2, 2, CPLErr.ceNone⟩
        ⟨fun bx byy => some (fun o =>
            v (bx * 2 + Int.tmod o 2) (byy * 2 + Int.tdiv o 2)),
          fun _ _ _ => 0, fun _ => false, fun _ => true⟩
        ⟨GDALRWFlag.GF_Read, 0, 0, 4, 4, 2, 2, 1, 2, none⟩
        ⟨fun _ => 0, fun _ _ => none, 0, 0⟩).st.buf 1 = v 3 1 ∧
    ( irasterIO ⟨4, 4, 2, 2, CPLErr.ceNone⟩
        ⟨fun bx byy => some (fun o =>
            v (bx * 2 + Int.tmod o 2) (byy * 2 + Int.tdiv o 2)),
          fun _ _ _ => 0, fun _ => false, fun _ => true⟩
        ⟨GDALRWFlag.GF_Read, 0, 0, 4, 4, 2, 2, 1, 2, none⟩
        ⟨fun _ => 0, fun _ _ => none, 0, 0⟩).st.buf 2 = v 1 3 ∧
    ( irasterIO ⟨4, 4, 2, 2, CPLErr.ceNone⟩
        ⟨fun bx byy => some (fun o =>
            v (bx * 2 + Int.tmod o 2) (byy * 2 + Int.tdiv o 2)),
          fun _ _ _ => 0, fun _ => false, fun _ => true⟩
        ⟨GDALRWFlag.GF_Read, 0, 0, 4, 4, 2, 2, 1, 2, none⟩
        ⟨fun _ => 0, fun _ _ => none, 0, 0⟩).st.buf 3 = v 3 3 ∧
    ( irasterIO ⟨4, 4, 2, 2, CPLErr.ceNone⟩
        ⟨fun bx byy => some (fun o =>
            v (bx * 2 + Int.tmod o 2) (byy * 2 + Int.tdiv o 2)),
          fun _ _ _ => 0, fun _ => false, fun _ => true⟩
        ⟨GDALRWFlag.GF_Read, 0, 0, 4, 4, 2, 2, 1, 2, none⟩
        ⟨fun _ => 0, fun _ _ => none, 0, 0⟩).err = CPLErr.ceNone :=
  ⟨rfl, rfl, rfl, rfl, rfl⟩

/-- C2 counterexample: with pixel values `v x y = x + 4 * y` the 2×2
decimated read returns (5, 7, 13, 15) — the pixels at (1,1), (3,1),
(1,3), (3,3) — not (0, 2, 8, 10), the pixels at (0,0), (2,0), (0,2),
(2,2) named by the claim. -/
theorem c2_decimated_read_counterexample :
    (( irasterIO ⟨4, 4, 2, 2, CPLErr.ceNone⟩
        ⟨fun bx byy => some (fun o =>
            ((bx * 2 + Int.tmod o 2) + 4 * (byy * 2 + Int.tdiv o 2)).toNat),
          fun _ _ _ => 0, fun _ => false, fun _ => true⟩
        ⟨GDALRWFlag.GF_Read, 0, 0, 4, 4, 2, 2, 1, 2, none⟩
        ⟨fun _ => 0, fun _ _ => none, 0, 0⟩).st.buf 0,
      ( irasterIO ⟨4, 4, 2, 2, CPLErr.ceNone⟩
        ⟨fun bx byy => some (fun o =>
            ((bx * 2 + Int.tmod o 2) + 4 * (byy * 2 + Int.tdiv o 2)).toNat),
          fun _ _ _ => 0, fun _ => false, fun _ => true⟩
        ⟨GDALRWFlag.GF_Read, 0, 0, 4, 4, 2, 2, 1, 2, none⟩
        ⟨fun _ => 0, fun _ _ => none, 0, 0⟩).st.buf 1,
      ( irasterIO ⟨4, 4, 2, 2, CPLErr.ceNone⟩
        ⟨fun bx byy => some (fun o =>
            ((bx * 2 + Int.tmod o 2) + 4 * (byy * 2 + Int.tdiv o 2)).toNat),
          fun _ _ _ => 0, fun _ => false, fun _ => true⟩
        ⟨GDALRWFlag.GF_Read, 0, 0, 4, 4, 2, 2, 1, 2, none⟩
        ⟨fun _ => 0, fun _ _ => none, 0, 0⟩).st.buf 2,
      ( irasterIO ⟨4, 4, 2, 2, CPLErr.ceNone⟩
        ⟨fun bx byy => some (fun o =>
            ((bx * 2 + Int.tmod o 2) + 4 * (byy * 2 + Int.tdiv o 2)).toNat),
          fun _ _ _ => 0, fun _ => false, fun _ => true⟩
        ⟨GDALRWFlag.GF_Read, 0, 0, 4, 4, 2, 2, 1, 2, none⟩
        ⟨fun _ => 0, fun _ _ => none, 0, 0⟩).st.buf 3) =
      ((5 : Nat), (7 : Nat), (13 : Nat), (15 : Nat)) ∧
    ((5 : Nat), (7 : Nat), (13 : Nat), (15 : Nat)) ≠
      ((0 : Nat), (2 : Nat), (8 : Nat), (10 : Nat)) :=
  ⟨by decide, by decide⟩

/-- C9 (amended, restricted to the 1:1 write path): writing a window
that completely covers the blocks of a raster whose extent is smaller
than the block grid fetches every covered block with
`bJustInitialize = true` — the result is independent of both block
storage `s` and the arbitrary prior memory `g` handed out for
just-initialized blocks — and zero-fills the partial edge blocks, so
after the call the portion of each edge block outside the raster's true
extent is exactly 0; a block NOT completely covered by the write is
fetched unmodified from storage first (`bJustInitialize = false`), and
its bytes outside the written region keep their stored values `sb`. -/
theorem c9_edge_block_zero_fill (g : Int → Int → Int → Nat)
    (s : Int → Int → Option (Int → Nat)) (sb : Int → Nat) :
    ((( irasterIO ⟨3, 3, 2, 2, CPLErr.ceNone⟩
          ⟨s, g, fun _ => false, fun _ => true⟩
          ⟨GDALRWFlag.GF_Write, 0, 0, 3, 3, 3, 3, 1, 3, none⟩
          ⟨fun a => (a + 10).toNat, fun _ _ => none, 0, 0⟩).st.written
            0 0).map (fun f => (f 0, f 1, f 2, f 3)) =
        some (10, 11, 13, 14) ∧
      (( irasterIO ⟨3, 3, 2, 2, CPLErr.ceNone⟩
          ⟨s, g, fun _ => false, fun _ => true⟩
          ⟨GDALRWFlag.GF_Write, 0, 0, 3, 3, 3, 3, 1, 3, none⟩
          ⟨fun a => (a + 10).toNat, fun _ _ => none, 0, 0⟩).st.written
            1 0).map (fun f => (f 0, f 1, f 2, f 3)) =
        some (12, 0, 15, 0) ∧
      (( irasterIO ⟨3, 3, 2, 2, CPLErr.ceNone⟩
          ⟨s, g, fun _ => false, fun _ => true⟩
          ⟨GDALRWFlag.GF_Write, 0, 0, 3, 3, 3, 3, 1, 3, none⟩
          ⟨fun a => (a + 10).toNat, fun _ _ => none, 0, 0⟩).st.written
            0 1).map (fun f => (f 0, f 1, f 2, f 3)) =
        some (16, 17, 0, 0) ∧
      (( irasterIO ⟨3, 3, 2, 2, CPLErr.ceNone⟩
          ⟨s, g, fun _ => false, fun _ => true⟩
          ⟨GDALRWFlag.GF_Write, 0, 0, 3, 3, 3, 3, 1, 3, none⟩
          ⟨fun a => (a + 10).toNat, fun _ _ => none, 0, 0⟩).st.written
            1 1).map (fun f => (f 0, f 1, f 2, f 3)) =
        some (18, 0, 0, 0) ∧
      ( irasterIO ⟨3, 3, 2, 2, CPLErr.ceNone⟩
          ⟨s, g, fun _ => false, fun _ => true⟩
          ⟨GDALRWFlag.GF_Write, 0, 0, 3, 3, 3, 3, 1, 3, none⟩
          ⟨fun a => (a + 10).toNat, fun _ _ => none, 0, 0⟩).trace =
        [Ev.check false, Ev.fetch 0 0 true true, Ev.drop,
          Ev.check false, Ev.fetch 1 0 true true, Ev.zeroFill, Ev.drop,
          Ev.progress true,
          Ev.check false, Ev.fetch 0 1 true true, Ev.zeroFill, Ev.drop,
          Ev.check false, Ev.fetch 1 1 true true, Ev.zeroFill, Ev.drop,
          Ev.progress true]) ∧
    ((( irasterIO ⟨4, 4, 2, 2, CPLErr.ceNone⟩
          ⟨fun _ _ => some sb, g, fun _ => false, fun _ => true⟩
          ⟨GDALRWFlag.GF_Write, 0, 0, 1, 1, 1, 1, 1, 1, none⟩
          ⟨fun _ => 77, fun _ _ => none, 0, 0⟩).st.written 0 0).map
            (fun f => (f 0, f 1, f 2, f 3)) =
        some (77, sb 1, sb 2, sb 3) ∧
      ( irasterIO ⟨4, 4, 2, 2, CPLErr.ceNone⟩
          ⟨fun _ _ => some sb, g, fun _ => false, fun _ => true⟩
          ⟨GDALRWFlag.GF_Write, 0, 0, 1, 1, 1, 1, 1, 1, none⟩
          ⟨fun _ => 77, fun _ _ => none, 0, 0⟩).trace =
        [Ev.check false, Ev.fetch 0 0 false true, Ev.drop,
          Ev.progress true]) :=
  ⟨⟨rfl, rfl, rfl, rfl, rfl⟩, rfl, rfl⟩

/-- C9 counterexample: on the general (resampled) write path the
zero-fill optimization is absent (the `memset` is commented out): a
write completely covering the valid region of a 4×4 edge block of a 3×3
raster fetches the block from storage (prior contents 9) and leaves the
out-of-extent byte at offset 3 equal to 9, not 0, while still returning
`CE_None`. -/
theorem c9_general_write_keeps_garbage_counterexample :
    (( irasterIO ⟨3, 3, 4, 4, CPLErr.ceNone⟩
        ⟨fun _ _ => some (fun _ => 9), fun _ _ _ => 5, fun _ => false,
          fun _ => true⟩
        ⟨GDALRWFlag.GF_Write, 0, 0, 3, 3, 1, 1, 1, 1, none⟩
        ⟨fun _ => 7, fun _ _ => none, 0, 0⟩).st.written 0 0).map
          (fun f => f 3) = some 9 ∧
    (( irasterIO ⟨3, 3, 4, 4, CPLErr.ceNone⟩
        ⟨fun _ _ => some (fun _ => 9), fun _ _ _ => 5, fun _ => false,
          fun _ => true⟩
        ⟨GDALRWFlag.GF_Write, 0, 0, 3, 3, 1, 1, 1, 1, none⟩
        ⟨fun _ => 7, fun _ _ => none, 0, 0⟩).st.written 0 0).map
          (fun f => f 3) ≠ some 0 ∧
    ( irasterIO ⟨3, 3, 4, 4, CPLErr.ceNone⟩
        ⟨fun _ _ => some (fun _ => 9), fun _ _ _ => 5, fun _ => false,
          fun _ => true⟩
        ⟨GDALRWFlag.GF_Write, 0, 0, 3, 3, 1, 1, 1, 1, none⟩
        ⟨fun _ => 7, fun _ _ => none, 0, 0⟩).err = CPLErr.ceNone :=
  ⟨by decide, by decide, by decide⟩
